import Mathlib

/-!
Verification of the Grumble persistence engine specification against a
shallow embedding of its Go source.  Each section embeds one slice of the
source (keys, conditions, kind registration, the query SQL renderer, the
row scanner pipeline, and the entity manager write path) and the theorems
at the end of the file settle the specification claims against those
embeddings.
-/

namespace Grumble

/-! ## Key model (key.go in the part_005 revision)

A Go Key is a pointer structure: kind (nil for the zero key), an integer
ident, and a parent pointer (possibly nil).  Nil pointers are modelled by
Option.  ZeroKey is the distinguished sentinel with kind nil and ident 0. -/

inductive GoKey where
  | nil
  | mk (kind : Option String) (ident : Int) (parent : GoKey)
  deriving Repr, DecidableEq

def ZeroKey : GoKey := .mk none 0 .nil

/-- Key.Kind on a possibly-nil pointer: nil receiver gives nil. -/
def GoKey.kind : GoKey → Option String
  | .nil => none
  | .mk k _ _ => k

/-- Key.Id on a possibly-nil pointer: nil receiver gives 0. -/
def GoKey.ident : GoKey → Int
  | .nil => 0
  | .mk _ i _ => i

/-- Key.Parent on a possibly-nil pointer: nil receiver gives nil. -/
def GoKey.parent : GoKey → GoKey
  | .nil => .nil
  | .mk _ _ p => p

/-- Key.IsZero: true when the kind pointer is nil; the Go method returns
false on a nil receiver. -/
def GoKey.isZero : GoKey → Bool
  | .nil => false
  | .mk k _ _ => k.isNone

/-- The leaf-to-root list of (kind name, ident) links, stopping at the first
nil or zero key, exactly the links Key.Chain serialises. -/
def GoKey.links : GoKey → List (String × Int)
  | .nil => []
  | .mk none _ _ => []
  | .mk (some n) i p => (n, i) :: p.links

/-- The canonical key built from a link list: every parent pointer present,
terminating in ZeroKey.  This is the shape ParseKey produces. -/
def canonKey : List (String × Int) → GoKey
  | [] => ZeroKey
  | (n, i) :: rest => .mk (some n) i (canonKey rest)

/-! ## Decimal formatting (fmt %d) and strconv.ParseInt -/

def digitChar (n : Nat) : Char := Char.ofNat (48 + n)

/-- Decimal digit expansion with explicit fuel so the definition reduces by
computation; the fuel is always sufficient when it exceeds the operand. -/
def natDecAux : Nat → Nat → List Char
  | 0, _ => []
  | fuel + 1, n =>
    if n < 10 then [digitChar n]
    else natDecAux fuel (n / 10) ++ [digitChar (n % 10)]

/-- Decimal digits of a natural number, most significant first; models the
output of fmt %d for non-negative operands. -/
def natDec (n : Nat) : List Char := natDecAux (n + 1) n

/-- fmt %d of a Go int. -/
def intRepr (i : Int) : String :=
  if i < 0 then ⟨'-' :: natDec ((-i).toNat)⟩ else ⟨natDec i.toNat⟩

def isDecDigit (c : Char) : Bool := 48 ≤ c.toNat ∧ c.toNat ≤ 57

def decDigitVal (c : Char) : Nat := c.toNat - 48

/-- Accumulate a decimal digit string; none on any non-digit. -/
def parseDecDigits (l : List Char) : Option Nat :=
  l.foldl (fun acc c =>
    match acc with
    | none => none
    | some a => if isDecDigit c then some (a * 10 + decDigitVal c) else none)
    (some 0)

def hexDigitVal (c : Char) : Option Nat :=
  if isDecDigit c then some (decDigitVal c)
  else if 97 ≤ c.toNat ∧ c.toNat ≤ 102 then some (c.toNat - 87)
  else if 65 ≤ c.toNat ∧ c.toNat ≤ 70 then some (c.toNat - 55)
  else none

/-- Digit value of one character in the given base, none when invalid. -/
def baseDigitVal (base : Nat) (c : Char) : Option Nat :=
  match hexDigitVal c with
  | none => none
  | some v => if v < base then some v else none

def parseBaseDigits (base : Nat) (l : List Char) : Option Nat :=
  l.foldl (fun acc c =>
    match acc with
    | none => none
    | some a =>
      match baseDigitVal base c with
      | none => none
      | some v => some (a * base + v))
    (some 0)

/-- No two consecutive underscores. -/
def noAdjacentUnderscores : List Char → Bool
  | c1 :: c2 :: rest =>
    (!(c1 = '_' ∧ c2 = '_')) && noAdjacentUnderscores (c2 :: rest)
  | _ => true

/-- Go underscore rule for base-0 literals: an underscore must sit between
two digit (or base-prefix) characters. -/
def underscoresOK (l : List Char) : Bool :=
  match l with
  | [] => true
  | _ =>
    (!(l.head? == some '_')) && (!(l.getLast? == some '_')) &&
    noAdjacentUnderscores l

/-- The sign prefix of an integer literal. -/
def signSplit : List Char → Bool × List Char
  | [] => (false, [])
  | c :: rest =>
    if c = '+' then (false, rest)
    else if c = '-' then (true, rest)
    else (false, c :: rest)

/-- Base detection for base-0 literals: 0x, 0o, 0b prefixes, a bare leading
zero selects legacy octal, anything else is decimal. -/
def baseSplit : List Char → Nat × List Char
  | c0 :: c :: rest =>
    if c0 = '0' then
      if c = 'x' ∨ c = 'X' then (16, rest)
      else if c = 'o' ∨ c = 'O' then (8, rest)
      else if c = 'b' ∨ c = 'B' then (2, rest)
      else (8, c :: rest)
    else (10, c0 :: c :: rest)
  | l => (10, l)

/-- Models strconv.ParseInt(s, 0, 0): optional sign, base detection from the
prefix, underscores allowed between digits, 64-bit range check. -/
def parseIntGo (s : String) : Except String Int :=
  if s.data.isEmpty then .error "invalid syntax"
  else
    let p := signSplit s.data
    let q := baseSplit p.2
    if q.2.isEmpty then .error "invalid syntax"
    else if ¬ underscoresOK q.2 then .error "invalid syntax"
    else
      match parseBaseDigits q.1 (q.2.filter (· ≠ '_')) with
      | none => .error "invalid syntax"
      | some v =>
        if p.1 then
          if v > 2 ^ 63 then .error "value out of range" else .ok (-(v : Int))
        else
          if v > 2 ^ 63 - 1 then .error "value out of range" else .ok (v : Int)

/-! ## Kind registry lookup (kind.go getKindForKind, reached through
GetKind on a string).  Kinds are identified by their registered name. -/

/-- strings.ReplaceAll(strings.ToLower(k), "/", "."). -/
def normalizeKindName (s : String) : String :=
  ⟨s.data.map (fun c => if c.toLower = '/' then '.' else c.toLower)⟩

/-- Kind.Basename: the part after the last dot. -/
def basename (s : String) : String :=
  match (s.data.splitOn '.').getLast? with
  | none => s
  | some l => ⟨l⟩

/-- The process-wide kind registry, as the list of registered kind names.
Map iteration order in Go is unspecified; the list order stands in for it
in the basename fallback. -/
def getKindForKindM (reg : List String) (k : String) : Option String :=
  let k := normalizeKindName k
  if reg.contains k then some k
  else reg.find? (fun kind => basename kind = k)

/-! ## Key formatting (Key.String, Key.Chain) -/

def braceO : Char := Char.ofNat 123
def braceC : Char := Char.ofNat 125
def quoteC : Char := Char.ofNat 34

/-- Go %q of a string covering the printable ASCII range: wrap in quotes,
escaping embedded quotes and backslashes. -/
def quoteGo (s : String) : String :=
  ⟨quoteC :: (s.data.flatMap (fun c => if c = quoteC ∨ c = '\\' then ['\\', c] else [c])) ++ [quoteC]⟩

/-- Key.String for a non-zero key: ("%s,%d" of name and ident wrapped in
parentheses); the zero key renders as a quoted empty pair. -/
def keyString (k : GoKey) : String :=
  match k.kind with
  | none => ⟨['(', quoteC, quoteC, ',', '0', ')']⟩
  | some n => "(" ++ n ++ "," ++ intRepr k.ident ++ ")"

/-- strings.Join with a separator. -/
def joinSep (sep : List Char) : List (List Char) → List Char
  | [] => []
  | [p] => p
  | p :: rest => p ++ sep ++ joinSep sep rest

/-- Key.Chain: the %q-quoted String of every link from leaf up to the first
zero or nil key, joined with commas and wrapped in braces. -/
def chainStr (k : GoKey) : String :=
  ⟨braceO :: joinSep [','] ((k.links.map (fun l => (quoteGo (keyString (.mk (some l.1) l.2 .nil))).data))) ++ [braceC]⟩

/-! ## Key parsing (ParseKey, buildKeyChain) -/

def stripSet : List Char := [braceO, braceC, '(', ')', ' ', quoteC]

/-- True for the characters the delimiter strip keeps. -/
def keepChar (c : Char) : Bool := ¬ stripSet.contains c

/-- The strings.NewReplacer pass that deletes braces, parentheses, spaces
and double quotes. -/
def stripDelims (s : String) : String :=
  ⟨s.data.filter keepChar⟩

/-- The backwards loop of buildKeyChain over (kind, id) pairs: the last pair
is processed first, an empty kind name resets the accumulator to ZeroKey. -/
def buildChain (reg : List String) : List (String × String) → Except String GoKey
  | [] => .ok ZeroKey
  | (k, i) :: rest => do
    let ret ← buildChain reg rest
    if k = "" then pure ZeroKey
    else
      match getKindForKindM reg k with
      | none => .error ("kind '" ++ k ++ "' does not exist")
      | some kind => do
        let id ← parseIntGo i
        pure (.mk (some kind) id ret)

/-- Split a flat chain list into successive (kind, id) pairs. -/
def toPairs : List String → List (String × String)
  | k :: i :: rest => (k, i) :: toPairs rest
  | _ => []

def buildKeyChain (reg : List String) (chain : List String) : Except String GoKey :=
  if chain.length = 0 then .error "key chain is empty"
  else if chain.length / 2 * 2 ≠ chain.length then
    .error ("key chain \x27" ++ String.intercalate "," chain ++ "\x27 has an odd number of entries")
  else buildChain reg (toPairs chain)

/-- ParseKey: strip the delimiter characters; an empty remainder is the zero
key; otherwise split on commas and fold the chain. -/
def parseKey (reg : List String) (s : String) : Except String GoKey :=
  if stripDelims s = "" then .ok ZeroKey
  else buildKeyChain reg (((stripDelims s).data.splitOn ',').map (fun l => (⟨l⟩ : String)))

/-- A key chain whose parent pointers are all present and terminate in the
zero key, the shape produced by parsing. -/
def GoKey.endsInZero : GoKey → Bool
  | .nil => false
  | .mk none i p => i = 0 ∧ p = .nil
  | .mk (some _) _ p => p.endsInZero

/-- A kind-name character that survives the delimiter strip, is not a chain
separator, and needs no %q escaping. -/
def cleanKindChar (c : Char) : Bool :=
  keepChar c ∧ c ≠ ',' ∧ c ≠ '\\'

/-- Conditions on one chain link under which parsing can reconstruct it: a
non-empty registered kind name already in normalized form built from clean
characters, and an ident within the 64-bit range. -/
def linkOK (reg : List String) (l : String × Int) : Bool :=
  l.1 ≠ "" ∧ normalizeKindName l.1 = l.1 ∧ reg.contains l.1 ∧
  l.1.data.all cleanKindChar ∧
  ((-(2 ^ 63) : Int) ≤ l.2 ∧ l.2 ≤ 2 ^ 63 - 1)

/-- The flattened name/ident chunk list that survives stripping a chain. -/
def chainPieces (k : GoKey) : List (List Char) :=
  k.links.flatMap (fun l => [l.1.data, (intRepr l.2).data])

/-! ## Rendered SQL fragments

The SQL renderer is embedded as a fragment list: literal text chunks in the
order Go concatenates them, with a dedicated fragment for every \x5f\x5fcount\x5f\x5f
placeholder a condition emits, carrying the value bound at that position.
Joining the fragments yields the rendered text. -/

/-- A bound parameter value (the interface values Go appends). -/
inductive Val where
  | i (n : Int)
  | s (t : String)
  deriving Repr, DecidableEq

inductive Frag where
  | lit (s : String)
  | cnt (v : Val)
  deriving Repr, DecidableEq

def fragStr : Frag → String
  | .lit s => s
  | .cnt _ => "__count__"

def fragsJoin : List Frag → String
  | [] => ""
  | f :: rest => fragStr f ++ fragsJoin rest

def countCnt (l : List Frag) : Nat :=
  l.countP (fun f => match f with | .cnt _ => true | .lit _ => false)

def extractVals (l : List Frag) : List Val :=
  l.filterMap (fun f => match f with | .cnt v => some v | .lit _ => none)

/-- Greedy left-to-right occurrence count of the placeholder pattern in a
character list, with fuel for structural recursion. -/
def occCountAux (pat : List Char) : Nat → List Char → Nat
  | 0, _ => 0
  | fuel + 1, l =>
    match l with
    | [] => 0
    | _ :: rest =>
      if pat.isPrefixOf l then 1 + occCountAux pat fuel (l.drop pat.length)
      else occCountAux pat fuel rest

/-- Number of occurrences of the positional-parameter placeholder in a
rendered SQL string, counted the way the tweak pass consumes them. -/
def occCount (s : String) : Nat := occCountAux "__count__".data s.data.length s.data

/-! ## References condition (condition.go) -/

/-- The value stored in References.References: a single key pointer, a
non-nil entity, a slice of key pointers, a slice of entities with possibly
nil interface elements, or the untyped nil interface. -/
inductive RefInput where
  | null
  | key (k : GoKey)
  | entity (k : GoKey)
  | keys (ks : List GoKey)
  | entities (es : List (Option GoKey))
  deriving Repr, DecidableEq

/-- ref.IsZero() or ref == nil for a *Key: the IsZero method returns false
on a nil pointer, the explicit nil comparison catches it. -/
def isZeroOrNilKey (k : GoKey) : Bool :=
  k.isZero || (match k with | .nil => true | _ => false)

def keepNonZeroKey (k : GoKey) : Option GoKey :=
  if isZeroOrNilKey k then none else some k

/-- The normalization switch of References.WhereClause: the kept reference
list (nil when empty) and the has-zero marker. -/
def refNormalize : RefInput → Option (List GoKey) × Bool
  | .null => (none, true)
  | .key k => if isZeroOrNilKey k then (none, true) else (some [k], false)
  | .entity k => (some [k], false)
  | .keys ks =>
    let kept := ks.filterMap keepNonZeroKey
    (if kept.isEmpty then none else some kept, ks.any isZeroOrNilKey)
  | .entities es =>
    if es.isEmpty then (none, false)
    else
      let kept := es.filterMap id
      (if kept.isEmpty then none else some kept, es.any (·.isNone))

/-- The typed-parameter list inside an IN clause, one placeholder per kept
reference, in order, carrying the stringified key. -/
def refParamFrags (schema : String) : List GoKey → List Frag
  | [] => []
  | [k] => [.cnt (.s (keyString k)), .lit ("::" ++ schema ++ ".\"Reference\"")]
  | k :: rest =>
    [.cnt (.s (keyString k)), .lit ("::" ++ schema ++ ".\"Reference\""), .lit ", "] ++
      refParamFrags schema rest

/-- References.where: the six-way switch on the normalized state. -/
def refWhereFrags (schema als col : String) (refs : Option (List GoKey))
    (hasZero invert : Bool) : List Frag :=
  match refs, hasZero, invert with
  | none, _, false => [.lit (als ++ quoteGo col ++ " IS NULL")]
  | none, _, true => [.lit (als ++ quoteGo col ++ " IS NOT NULL")]
  | some rs, false, false =>
    [.lit (als ++ quoteGo col ++ " IN ( ")] ++ refParamFrags schema rs ++ [.lit " )"]
  | some rs, false, true =>
    [.lit ("(" ++ als ++ quoteGo col ++ " NOT IN ( ")] ++ refParamFrags schema rs ++
      [.lit (" ) OR " ++ als ++ quoteGo col ++ " IS NULL)")]
  | some rs, true, false =>
    [.lit ("(" ++ als ++ quoteGo col ++ " IN ( ")] ++ refParamFrags schema rs ++
      [.lit (" ) OR " ++ als ++ quoteGo col ++ " IS NULL)")]
  | some rs, true, true =>
    [.lit ("(" ++ als ++ quoteGo col ++ " NOT IN ( ")] ++ refParamFrags schema rs ++
      [.lit (" ) AND " ++ als ++ quoteGo col ++ " IS NOT NULL)")]

/-- References.WhereClause followed by References.where, as the rendered
string. -/
def referencesWhereClause (schema als col : String) (input : RefInput)
    (invert : Bool) : String :=
  fragsJoin (refWhereFrags schema als col (refNormalize input).1 (refNormalize input).2 invert)

/-- References.Values: one stringified key per kept reference. -/
def refValues (input : RefInput) : List Val :=
  match (refNormalize input).1 with
  | none => []
  | some rs => rs.map (fun k => .s (keyString k))

/-! ### Claim-side rendering of §4.5.1 (for the refinement comparison)

These definitions follow the words of the specification matrix, written
independently of the code-side fragment renderer. -/

/-- Modelled from the claim text: the placeholder list of an IN clause with
one typed placeholder per parameter. -/
def claimParams (schema : String) : Nat → String
  | 0 => ""
  | 1 => "__count__::" ++ schema ++ ".\"Reference\""
  | n + 2 => "__count__::" ++ schema ++ ".\"Reference\"" ++ ", " ++ claimParams schema (n + 1)

/-- Modelled from the claim text: the §4.5.1 matrix applied to a normalized
(kept references, has-zero) state. -/
def claimMatrix (schema als col : String) (norm : Option (List GoKey) × Bool)
    (invert : Bool) : String :=
  match norm.1 with
  | none =>
    if invert then als ++ quoteGo col ++ " IS NOT NULL"
    else als ++ quoteGo col ++ " IS NULL"
  | some rs =>
    let params := claimParams schema rs.length
    match norm.2, invert with
    | false, false => als ++ quoteGo col ++ " IN ( " ++ params ++ " )"
    | false, true =>
      "(" ++ als ++ quoteGo col ++ " NOT IN ( " ++ params ++ " ) OR " ++
        als ++ quoteGo col ++ " IS NULL)"
    | true, false =>
      "(" ++ als ++ quoteGo col ++ " IN ( " ++ params ++ " ) OR " ++
        als ++ quoteGo col ++ " IS NULL)"
    | true, true =>
      "(" ++ als ++ quoteGo col ++ " NOT IN ( " ++ params ++ " ) AND " ++
        als ++ quoteGo col ++ " IS NOT NULL)"

/-- Modelled from the claim text: zero or null entries set the has-zero
marker and are removed, for every input shape alike; an empty remainder is
treated as null. -/
def claimNormalize : RefInput → Option (List GoKey) × Bool
  | .null => (none, false)
  | .key k =>
    if isZeroOrNilKey k then (none, true) else (some [k], false)
  | .entity k =>
    if k.isZero then (none, true) else (some [k], false)
  | .keys ks =>
    let kept := ks.filterMap keepNonZeroKey
    (if kept.isEmpty then none else some kept, ks.any isZeroOrNilKey)
  | .entities es =>
    let kept := es.filterMap (fun o => o.bind keepNonZeroKey)
    (if kept.isEmpty then none else some kept,
      es.any (fun o => o.isNone || (o.map GoKey.isZero).getD false))

/-- Modelled from the claim text: the full normalize-then-matrix rendering. -/
def claimReferencesWhere (schema als col : String) (input : RefInput)
    (invert : Bool) : String :=
  claimMatrix schema als col (claimNormalize input) invert

/-- Inputs without non-nil zero-key entities, where the code normalization
and the claim normalization coincide. -/
def entityZeroFree : RefInput → Bool
  | .entity k => !(isZeroOrNilKey k)
  | .entities es => es.all (fun o => (o.map (fun k => !(isZeroOrNilKey k))).getD true)
  | _ => true

/-! ## Kinds with base chains, for the scanner pipeline (kind.go, database_test.go)

A Kind as the scanner pipeline sees it: a normalized kind name, the field
names of its columns (Kind.Column resolves by field name), and an optional
base kind (Kind.BaseKind, a nil-able pointer, modelled by the two
constructors). -/

inductive KindT where
  | root (kname : String) (cols : List String)
  | derived (kname : String) (cols : List String) (base : KindT)
  deriving Repr, DecidableEq

def KindT.kindName : KindT → String
  | .root n _ => n
  | .derived n _ _ => n

def KindT.colNames : KindT → List String
  | .root _ cs => cs
  | .derived _ cs _ => cs

/-- Kind.DerivesFrom: walk the base chain comparing kind names. -/
def derivesFrom : KindT → KindT → Bool
  | .root n _, b => n == b.kindName
  | .derived n _ p, b => n == b.kindName || derivesFrom p b

/-- A value stored in an entity field: a primitive scanned value, or a
reference to another entity (set by the reference wiring of
Scanners.Build). -/
inductive FieldVal where
  | prim (v : Val)
  | refTo (kindName : String) (id : Int)
  deriving Repr, DecidableEq

/-- An entity as built by EntityManager.Make plus Populate: the concrete
(possibly derived) kind, the scanned parent key and id, the field bag
transferred by Populate, and the populated flag Populate sets. -/
structure EntityS where
  kind : KindT
  parentKey : GoKey
  id : Int
  fields : List (String × FieldVal)
  populated : Bool
  deriving Repr, DecidableEq

/-- A Persistable produced by the scanner pipeline: the ZeroKey placeholder
(whose key IsZero) or a built entity (whose key has a kind, hence is not
zero). -/
inductive PersistableS where
  | zeroKey
  | ent (e : EntityS)
  deriving Repr, DecidableEq

/-- The per-row data one EntityScanner has consumed: the scanned _kind
column (none models SQL null), the scanned parent key chain, the scanned
_id, and the value bag of the remaining columns. -/
structure RawScan where
  kind : Option KindT
  parentKey : GoKey
  id : Int
  bag : List (String × FieldVal)
  deriving Repr, DecidableEq

/-- EntityScanner.Build: a nil scanned kind yields the ZeroKey placeholder;
a scanned kind that does not derive from the scanner's declared kind is an
error; otherwise the manager makes an entity of the scanned kind with the
scanned parent and id, and Populate fills the fields and sets the populated
flag. -/
def entityScannerBuild (declared : KindT) (scanned : Option KindT)
    (parentKey : GoKey) (id : Int) (bag : List (String × FieldVal)) :
    Except String PersistableS :=
  match scanned with
  | none => .ok .zeroKey
  | some k =>
    if derivesFrom k declared then
      .ok (.ent { kind := k, parentKey := parentKey, id := id,
                  fields := bag, populated := true })
    else
      .error ("kind \x27" ++ k.kindName ++ "\x27 does not derive from \x27" ++
        declared.kindName ++ "\x27")

/-- The slice of a QueryTable that MakeScanners consults. -/
structure ScanTable where
  kind : KindT
  groupBy : Bool
  deriving Repr, DecidableEq

/-- The slice of a Join that MakeScanners consults. -/
structure ScanJoin where
  table : ScanTable
  reference : Bool
  fieldName : String
  deriving Repr, DecidableEq

/-- The slice of a Query that MakeScanners consults: the root QueryTable
and the join list. -/
structure ScanQuery where
  root : ScanTable
  joins : List ScanJoin
  deriving Repr, DecidableEq

/-- Query.GroupedBy: the root table if it carries GroupBy, else the first
join table that does. -/
def scanGroupedBy (q : ScanQuery) : Option ScanTable :=
  if q.root.groupBy then some q.root
  else (q.joins.find? (fun j => j.table.groupBy)).map (fun j => j.table)

/-- The references map of MakeScanners: for each join flagged Reference,
its field name mapped to the index of its scanner (position in the scanner
list, the root scanner being index 0). -/
def scanRefs (joins : List ScanJoin) : List (String × Nat) :=
  joins.enum.filterMap
    (fun p => if p.2.reference then some (p.2.fieldName, p.1 + 1) else none)

/-- MakeScanners: with a grouped table, a single scanner on that table;
otherwise one scanner for the root table and one per join, plus the
references map. Each scanner is represented by its declared kind. -/
def makeScannersM (q : ScanQuery) : List KindT × List (String × Nat) :=
  match scanGroupedBy q with
  | some t => ([t.kind], [])
  | none => (q.root.kind :: q.joins.map (fun j => j.table.kind), scanRefs q.joins)

/-- The Go loop over a slice with an early error return. -/
def exceptMapM {α β : Type} (f : α → Except String β) : List α → Except String (List β)
  | [] => .ok []
  | x :: rest =>
    match f x with
    | .error m => .error m
    | .ok y =>
      match exceptMapM f rest with
      | .error m => .error m
      | .ok ys => .ok (y :: ys)

/-- One reference-wiring step of Scanners.Build: look up the referenced
scanner's entity; a zero key reference sets nothing; otherwise the root
entity's kind must resolve the column (a nil root kind dereferences nil in
Go, modelled as an error), and when it does the referenced entity is stored
in the root entity's field. -/
def wireOne (ents : List PersistableS) (root : PersistableS)
    (cw : String × Nat) : Except String PersistableS :=
  match ents.get? cw.2 with
  | none => .error "panic: runtime error: index out of range"
  | some r =>
    match r with
    | .zeroKey => .ok root
    | .ent re =>
      match root with
      | .zeroKey => .error "panic: runtime error: invalid memory address or nil pointer dereference"
      | .ent rootE =>
        if rootE.kind.colNames.contains cw.1 then
          .ok (.ent { rootE with
            fields := rootE.fields ++ [(cw.1, .refTo re.kind.kindName re.id)] })
        else .ok root

def wireFold (ents : List PersistableS) :
    PersistableS → List (String × Nat) → Except String PersistableS
  | root, [] => .ok root
  | root, cw :: rest =>
    match wireOne ents root cw with
    | .error m => .error m
    | .ok root2 => wireFold ents root2 rest

/-- Scanners.Build: build one Persistable per scanner in order, then wire
the reference joins into the root entity (Go mutates ret[0] in place; the
model writes the wired root back at position 0). The map iteration order of
Go is unspecified; the model fixes the join order. -/
def scannersBuild (scanners : List (KindT × RawScan))
    (refs : List (String × Nat)) : Except String (List PersistableS) :=
  match exceptMapM
      (fun p => entityScannerBuild p.1 p.2.kind p.2.parentKey p.2.id p.2.bag)
      scanners with
  | .error m => .error m
  | .ok ret =>
    match ret with
    | [] => .error "panic: runtime error: index out of range"
    | e :: _ =>
      match wireFold ret e refs with
      | .error m => .error m
      | .ok root => .ok (ret.set 0 root)

/-- Query.Execute, from MakeScanners on: for every fetched row (given here
as the per-scanner raw data), Scanners.Build produces one entity vector. -/
def executeModel (q : ScanQuery) (raws : List (List RawScan)) :
    Except String (List (List PersistableS)) :=
  exceptMapM
    (fun raw => scannersBuild ((makeScannersM q).1.zip raw) (makeScannersM q).2)
    raws

/-! ## Query.ExecuteSingle (part_013)

The entity operations ExecuteSingle applies to a caller-supplied target
(e.SetKind + e.Initialize, the reflect.TypeOf comparison, and Copy) are
interface calls on the row element type; they are parameters of the
embedding. -/

def executeSingle {α : Type} (setKindInit : α → α → α) (sameType : α → α → Bool)
    (copyTo : α → α → Except String α)
    (results : List (List α)) (e : Option α) : Except String (Option α) :=
  match results with
  | [] => .ok none
  | _ :: _ :: _ => .error "call to ExecuteSingle returned more than one result"
  | [row] =>
    match row with
    | [] => .error "panic: runtime error: index out of range"
    | x :: _ =>
      match e with
      | none => .ok (some x)
      | some t =>
        let t2 := setKindInit t x
        if sameType t2 x then
          match copyTo x t2 with
          | .error m => .error m
          | .ok r => .ok (some r)
        else .ok (some x)

/-! ## update / insert / Put (persistable.go)

The kind is reduced to what the two statement builders read: the qualified
table name. An entity carries its id, the populated flag, and the flattened
values of its non-formula columns in column order (what the converters'
Value calls produce). The database connection is modelled by the outcome
parameters. -/

structure KindU where
  qualifiedTableName : String
  deriving Repr, DecidableEq

structure EntityU where
  id : Int
  populated : Bool
  colVals : List Val
  deriving Repr, DecidableEq

inductive StmtKind where
  | updateStmt
  | insertStmt
  deriving Repr, DecidableEq

/-- A statement handed to the connection: which template, on which table,
with which bound values. -/
structure ExecCall where
  stmt : StmtKind
  table : String
  values : List Val
  deriving Repr, DecidableEq

/-- The outcome of row.Scan on the INSERT ... RETURNING row. -/
inductive ScanOutcome where
  | noRows
  | failMsg (m : String)
  | got (id : Int)
  deriving Repr, DecidableEq

/-- update(e, conn): the source assigns the not-loaded error when the
entity is not populated but does not return; the next assignment
sqlText, err = updateEntity.Process(k) overwrites it (the static template
renders without error), so the UPDATE is built and executed regardless.
The result is the returned error and the statements handed to conn. -/
def updateM (k : KindU) (e : EntityU) (execErr : Option String) :
    Option String × List ExecCall :=
  let errNotLoaded : Option String :=
    if e.populated then none else some "cannot update entity. It is not loaded"
  let errProcess : Option String := (fun _ => none) errNotLoaded
  match errProcess with
  | some m => (some m, [])
  | none =>
    let values := e.colVals ++ [Val.i e.id]
    (execErr, [{ stmt := .updateStmt, table := k.qualifiedTableName, values := values }])

/-- insert(e, conn): the parent chain is the first bound value, then the
non-formula column values; the scanned RETURNING id initializes the entity
and marks it populated. -/
def insertM (k : KindU) (parentChain : String) (e : EntityU)
    (r : ScanOutcome) : Option String × List ExecCall × EntityU :=
  let values := Val.s parentChain :: e.colVals
  let call : ExecCall := { stmt := .insertStmt, table := k.qualifiedTableName, values := values }
  match r with
  | .noRows => (some "insert did not return assigned key", [call], e)
  | .failMsg m => (some m, [call], e)
  | .got newId => (none, [call], { e with id := newId, populated := true })

/-- EntityManager.Put for an entity with no interceptors: id > 0 takes the
update path, otherwise the insert path. -/
def putM (k : KindU) (parentChain : String) (e : EntityU)
    (execErr : Option String) (r : ScanOutcome) :
    Option String × List ExecCall × EntityU :=
  if e.id > 0 then
    let u := updateM k e execErr
    (u.1, u.2, e)
  else insertM k parentChain e r

/-! ## Kind registration (kind.go createKind / addColumn / SetBaseKind)

A column as addColumn sees it: the Go struct field name (the key of
columnsByName), the SQL column name (printed in the duplicate panic), and
the reflection index path. A kind under construction carries its columns
and its transient map (an association list, later writes shadowing earlier
ones as for a Go map). -/

structure ColumnR where
  fieldName : String
  columnName : String
  index : List Nat
  deriving Repr, DecidableEq

structure KindR where
  name : String
  columns : List ColumnR
  transient : List (String × List Nat)
  baseIndex : Option Nat
  baseName : Option String
  deriving Repr, DecidableEq

/-- Go map semantics on the transient association list: the value of the
last write for a name. -/
def transLookup (l : List (String × List Nat)) (n : String) : Option (List Nat) :=
  ((l.filter (fun t => t.1 == n)).map (fun t => t.2)).getLast?

/-- One exported field of a struct being registered, in declaration order:
a field tagged transient, the embedded grumble.Key marker, an embedded
registered struct (the base kind), a plain column field with its optional
columnname tag, or a field that produces no column (unexported fields and
fields without a converter also consume their index). -/
inductive FieldSpec where
  | transientF (fname : String)
  | keyMarker
  | baseEmbed (base : KindR)
  | plain (fname : String) (colNameTag : Option String)
  | skipped
  deriving Repr, DecidableEq

def FieldSpec.isBase : FieldSpec → Bool
  | .baseEmbed _ => true
  | _ => false

def FieldSpec.isKey : FieldSpec → Bool
  | .keyMarker => true
  | _ => false

def FieldSpec.isPlain : FieldSpec → Bool
  | .plain _ _ => true
  | _ => false

/-- Kind.addColumn: a second column under an already present field name is
the duplicate panic, whose message prints the column name. -/
def addColumnR (k : KindR) (c : ColumnR) : Except String KindR :=
  if k.columns.any (fun c2 => c2.fieldName == c.fieldName) then
    .error ("Kind \x27" ++ k.name ++ "\x27 cannot have two columns with the same name \x27" ++
      c.columnName ++ "\x27")
  else .ok { k with columns := k.columns ++ [c] }

def addColumnsR (k : KindR) : List ColumnR → Except String KindR
  | [] => .ok k
  | c :: rest =>
    match addColumnR k c with
    | .error m => .error m
    | .ok k2 => addColumnsR k2 rest

/-- Kind.SetBaseKind: record the base, then add every base column with its
index path prefixed by the embedding field index, then copy the base's
transient entries with the same prefix. -/
def setBaseKindR (k : KindR) (index : Nat) (b : KindR) : Except String KindR :=
  match addColumnsR { k with baseIndex := some index, baseName := some b.name }
      (b.columns.map (fun c => { c with index := index :: c.index })) with
  | .error m => .error m
  | .ok k2 =>
    .ok { k2 with
      transient := k2.transient ++ b.transient.map (fun t => (t.1, index :: t.2)) }

/-- The field loop of createKind: i is the reflection field index, keyFound
and the recorded base mirror the panic guards of the source. -/
def createKindAux (kname : String) :
    Nat → Bool → KindR → List FieldSpec → Except String KindR
  | _, _, k, [] => .ok k
  | i, keyFound, k, f :: rest =>
    match f with
    | .skipped => createKindAux kname (i + 1) keyFound k rest
    | .transientF n =>
      createKindAux kname (i + 1) keyFound
        { k with transient := k.transient ++ [(n, [i])] } rest
    | .keyMarker =>
      if k.baseIndex.isSome then
        .error ("Kind \x27" ++ kname ++ "\x27 cannot embed Key directly and have a BaseKind Kind")
      else createKindAux kname (i + 1) true k rest
    | .baseEmbed b =>
      if k.baseIndex.isSome then
        .error ("Kind \x27" ++ kname ++ "\x27: Multiple inheritance not supported.")
      else if keyFound then
        .error ("Kind \x27" ++ kname ++ "\x27 cannot embed Key directly and have a BaseKind Kind")
      else
        match setBaseKindR k i b with
        | .error m => .error m
        | .ok k2 => createKindAux kname (i + 1) keyFound k2 rest
    | .plain fn tag =>
      match addColumnR k { fieldName := fn, columnName := tag.getD fn, index := [i] } with
      | .error m => .error m
      | .ok k2 => createKindAux kname (i + 1) keyFound k2 rest

/-- createKind on a registered struct with the given normalized kind name
and exported fields. -/
def createKindR (kname : String) (fields : List FieldSpec) : Except String KindR :=
  createKindAux kname 0 false
    { name := kname, columns := [], transient := [], baseIndex := none, baseName := none }
    fields

/-- The field names of the columns a field list produces, in order: plain
fields contribute their field name, a base embed contributes the base's
column field names. -/
def expandedFieldNames (fields : List FieldSpec) : List String :=
  fields.flatMap (fun f =>
    match f with
    | .plain fn _ => [fn]
    | .baseEmbed b => b.columns.map (fun c => c.fieldName)
    | _ => [])

/-- The SQL column names of the columns a field list produces, in order. -/
def expandedColumnNames (fields : List FieldSpec) : List String :=
  fields.flatMap (fun f =>
    match f with
    | .plain fn tag => [tag.getD fn]
    | .baseEmbed b => b.columns.map (fun c => c.columnName)
    | _ => [])

/-- Field lists that do not trip the embedding panics: at most one base
embed, and never both a Key marker and a base embed. -/
def fieldsShapeOK (fields : List FieldSpec) : Bool :=
  decide ((fields.filter FieldSpec.isBase).length ≤ 1) &&
    !(fields.any FieldSpec.isKey && fields.any FieldSpec.isBase)

def plainCount (fields : List FieldSpec) : Nat :=
  (fields.filter FieldSpec.isPlain).length

/-- The field names of a kind's columns, in order (the key set of
columnsByName). -/
def fieldNamesR (k : KindR) : List String :=
  k.columns.map (fun c => c.fieldName)

/-- The SQL column names of a kind's columns, in order. -/
def colNamesR (k : KindR) : List String :=
  k.columns.map (fun c => c.columnName)

/-! ## The query renderer (part_013 querySQL + Query.SQL, condition.go)

The rendered SQL is a fragment list: literal chunks in template order, and
one placeholder fragment per positional parameter a condition emits,
carrying its bound value. Literal whitespace of the template is reproduced
approximately; every placeholder and every piece of clause text is kept.
strings.ReplaceAll is embedded with fuel so it evaluates by reduction. -/

def replaceAllAux (pat rep : List Char) : Nat → List Char → List Char
  | 0, l => l
  | fuel + 1, l =>
    match l with
    | [] => []
    | c :: rest =>
      if pat ≠ [] ∧ pat.isPrefixOf l then
        rep ++ replaceAllAux pat rep fuel (l.drop pat.length)
      else c :: replaceAllAux pat rep fuel rest

def replaceAllStr (s pat rep : String) : String :=
  ⟨replaceAllAux pat.data rep.data s.data.length s.data⟩

/-- The converter of a column: BasicConverter or ReferenceConverter
(converter.go). -/
inductive ConvM where
  | basic
  | reference
  deriving Repr, DecidableEq

structure ColumnM where
  fieldName : String
  colName : String
  formula : String
  conv : ConvM
  deriving Repr, DecidableEq

/-- Converter.SQLTextIn for the two converters: the quoted column text for
a SELECT, alias-qualified when an alias is given; the reference converter
splits the composite into its kind and id components. -/
def sqlTextIn (c : ColumnM) (als : String) (withT : Bool) : String :=
  let a := if als = "" then "" else als ++ "."
  match c.conv with
  | .basic => a ++ "\"" ++ c.colName ++ "\""
  | .reference =>
    if withT then
      "(" ++ a ++ "\"" ++ c.colName ++ "\").kind \"" ++ c.colName ++ "Kind\", (" ++
        a ++ "\"" ++ c.colName ++ "\").id \"" ++ c.colName ++ "Id\""
    else
      a ++ "\"" ++ c.colName ++ "Kind\", " ++ a ++ "\"" ++ c.colName ++ "Id\""

/-- A Kind as the query renderer reads it: normalized name, qualified table
name, columns, and the name and qualified table name of each transitively
derived kind (Kind.DerivedKinds). -/
structure KindC where
  kname : String
  qtn : String
  columns : List ColumnM
  derivedKinds : List (String × String)
  deriving Repr, DecidableEq

/-- Kind.ColumnByFieldName. -/
def columnByFieldName (k : KindC) (fn : String) : Option ColumnM :=
  k.columns.find? (fun c => c.fieldName == fn)

/-- What a condition renderer may read besides its own fields: the manager
schema, the alias prefix (query.Alias plus a dot under a query constraint,
empty otherwise), and for HasMaxValue the root kind's qualified table name
and the rendered SelectWhereClause(false) text. -/
structure CondCtx where
  schema : String
  aliasPfx : String
  rootQtn : String
  selWhereFalse : String
  deriving Repr, DecidableEq

/-- The condition algebra of condition.go. A compound holds its conditions
and the joining operand (empty defaults to AND). -/
inductive Cond where
  | simple (sqlRaw : String) (params : List Val)
  | predicate (expr op : String) (v : Val)
  | hasId (id : Int)
  | hasMaxVal (col : String)
  | hasMinVal (col : String)
  | hasParent (parent : GoKey)
  | hasAncestor (ancestor : GoKey)
  | isRoot
  | references (col : String) (input : RefInput) (invert : Bool)
  | compound (conds : List Cond) (operand : String)

def defaultOp (op : String) : String := if op = "" then "AND" else op

mutual

/-- Condition.WhereClause as fragments. HasParent normalizes a nil pointer
to the zero key; HasAncestor treats nil and zero ancestors as the trivial
clause; References renders the normalized reference state of
References.WhereClause. -/
def condFrags (ctx : CondCtx) : Cond → List Frag
  | .simple s _ => [.lit (replaceAllStr s "__alias__." ctx.aliasPfx)]
  | .predicate e op v =>
    [.lit (replaceAllStr e "__alias__." ctx.aliasPfx ++ " " ++ op ++ " "), .cnt v]
  | .hasId id => [.lit (ctx.aliasPfx ++ "\"_id\" = "), .cnt (.i id)]
  | .hasMaxVal col =>
    [.lit (ctx.aliasPfx ++ quoteGo col ++ " = (SELECT MAX(" ++ quoteGo col ++
      ") FROM " ++ ctx.rootQtn ++ " " ++ ctx.selWhereFalse ++ ")")]
  | .hasMinVal col =>
    [.lit (ctx.aliasPfx ++ quoteGo col ++ " = (SELECT MIN(" ++ quoteGo col ++
      ") FROM " ++ ctx.rootQtn ++ ")")]
  | .hasParent p =>
    let p2 := if p = GoKey.nil then ZeroKey else p
    if p2.isZero then
      [.lit ("cardinality(" ++ ctx.aliasPfx ++ "\"_parent\") = 0")]
    else
      [.lit (ctx.aliasPfx ++ "\"_parent\"[1] = "), .cnt (.s (keyString p2)),
        .lit ("::" ++ ctx.schema ++ ".\"Reference\"")]
  | .hasAncestor a =>
    if isZeroOrNilKey a then [.lit "1 = 1"]
    else
      [.cnt (.s (keyString a)),
        .lit ("::" ++ ctx.schema ++ ".\"Reference\" = ANY(" ++ ctx.aliasPfx ++ "\"_parent\")")]
  | .isRoot => [.lit ("cardinality(" ++ ctx.aliasPfx ++ "\"_parent\") = 0")]
  | .references col input invert =>
    refWhereFrags ctx.schema ctx.aliasPfx col (refNormalize input).1
      (refNormalize input).2 invert
  | .compound cs op => condListFrags ctx cs (defaultOp op)

/-- CompoundCondition.WhereClause: each member parenthesized, joined by the
operand. -/
def condListFrags (ctx : CondCtx) : List Cond → String → List Frag
  | [], _ => []
  | [c], _ => .lit "(" :: (condFrags ctx c ++ [.lit ")"])
  | c :: c2 :: rest, op =>
    .lit "(" :: (condFrags ctx c ++ [.lit (") " ++ op ++ " ")]) ++
      condListFrags ctx (c2 :: rest) op

end

mutual

/-- Condition.Values: the values appended for one condition, in order. -/
def condVals : Cond → List Val
  | .simple _ params => params
  | .predicate _ _ v => [v]
  | .hasId id => [.i id]
  | .hasMaxVal _ => []
  | .hasMinVal _ => []
  | .hasParent p =>
    let p2 := if p = GoKey.nil then ZeroKey else p
    if p2.isZero then [] else [.s (keyString p2)]
  | .hasAncestor a =>
    if isZeroOrNilKey a then [] else [.s (keyString a)]
  | .isRoot => []
  | .references _ input _ => refValues input
  | .compound cs _ => condListVals cs

def condListVals : List Cond → List Val
  | [] => []
  | c :: rest => condVals c ++ condListVals rest

end

mutual

/-- The condition discipline of the amended placeholder claim: no raw-SQL
SimpleCondition (its text and parameter list are unrelated), and no
HasMaxValue / HasMinValue (HasMaxValue embeds the rendered query-constraint
clause without binding its values). -/
def condOK : Cond → Bool
  | .simple _ _ => false
  | .hasMaxVal _ => false
  | .hasMinVal _ => false
  | .compound cs _ => condListOK cs
  | _ => true

def condListOK : List Cond → Bool
  | [] => true
  | c :: rest => condOK c && condListOK rest

end

/-- A computed column (Computed.SQLFormula). -/
structure CompM where
  formula : String
  als : String
  cname : String
  deriving Repr, DecidableEq

def compFormula (cm : CompM) : String :=
  cm.formula ++ " " ++ (if cm.als = "" then "" else cm.als ++ ".") ++ quoteGo cm.cname

/-- An aggregate column (Aggregate.SQLText). -/
structure AggM where
  fn : String
  column : String
  aggName : String
  dflt : String
  deriving Repr, DecidableEq

def aggText (als : String) (a : AggM) : String :=
  let col := if a.column = "*" then "*" else als ++ ".\"" ++ a.column ++ "\""
  if a.dflt ≠ "" then
    "COALESCE(" ++ a.fn ++ "(" ++ col ++ "), " ++ a.dflt ++ ") " ++ quoteGo a.aggName
  else a.fn ++ "(" ++ col ++ ") " ++ quoteGo a.aggName

/-- A QueryTable: kind, derived expansion flag, alias, the compound
condition contents with its operand, grouping flag, computed and aggregate
columns. -/
structure QTableC where
  kind : KindC
  withDerived : Bool
  als : String
  conditions : List Cond
  operand : String
  groupBy : Bool
  computed : List CompM
  aggregates : List AggM

/-- QueryTable.WhereClause with queryConstraint false (as the WITH bodies
render it). -/
def tableWhereFrags (ctx : CondCtx) (t : QTableC) : List Frag :=
  if t.conditions.isEmpty then []
  else .lit "WHERE " :: condListFrags ctx t.conditions (defaultOp t.operand)

/-- The literal head of a WithTable body: alias AS ( SELECT kind literal,
parent, id, the formula/SQLTextIn column chunk, the computed chunk, FROM
the kind's table. -/
def withTableHead (t : QTableC) : String :=
  t.als ++ " AS (\n\t\tSELECT \x27" ++ t.kind.kname ++ "\x27 \"_kind\", \"_parent\", \"_id\"\n\t\t\t\t" ++
  String.join (t.kind.columns.map (fun c => ", " ++ c.formula ++ " " ++ sqlTextIn c "" true)) ++
  " \n\t\t\t\t" ++
  String.join (t.computed.map (fun cm => ", " ++ compFormula cm)) ++
  " \n\t\t\tFROM " ++ t.kind.qtn ++ "\n\t\t    "

/-- One UNION ALL arm per derived kind: the derived kind's name literal and
table, the embedding table's columns and computed chunk, and the embedding
table's where clause again. -/
def withTableUnion (t : QTableC) (d : String × String) : String :=
  "\n\t\tUNION ALL\n\t\tSELECT \x27" ++ d.1 ++ "\x27 \"_kind\", \"_parent\", \"_id\"\n \t\t\t\t" ++
  String.join (t.kind.columns.map (fun c => ", " ++ c.formula ++ " " ++ sqlTextIn c "" true)) ++
  " \n\t\t\t\t" ++
  String.join (t.computed.map (fun cm => ", " ++ compFormula cm)) ++
  " \n\t\t\tFROM " ++ d.2 ++ "\n\t\t    "

/-- The WithTable template: head, where clause, and when WithDerived is set
one UNION ALL arm per derived kind, each repeating the where clause. -/
def withTableFrags (ctx : CondCtx) (t : QTableC) : List Frag :=
  let wf := tableWhereFrags ctx t
  [.lit (withTableHead t)] ++ wf ++
  (if t.withDerived then
    t.kind.derivedKinds.flatMap (fun d => [.lit (withTableUnion t d)] ++ wf)
  else []) ++ [.lit "\n\t)\n"]

/-- The SelectFrom template: kind, parent, id and the column and computed
chunks of one table, alias-qualified. -/
def selectFromText (t : QTableC) : String :=
  "\n\t" ++ t.als ++ ".\"_kind\", " ++ t.als ++ ".\"_parent\", " ++ t.als ++ ".\"_id\"\n\t" ++
  String.join (t.kind.columns.map (fun c => ", " ++ sqlTextIn c t.als false)) ++ "\n\t" ++
  String.join (t.computed.map (fun cm => ", " ++ t.als ++ ".\"" ++ cm.cname ++ "\"")) ++ "\n"

/-- A sub-query: its table, the raw where text of its sub-selects, and the
sub-select columns (SubQuery.SQLText). -/
structure SubQC where
  table : QTableC
  whereRaw : String
  subSelects : List CompM

def sqSelectText (sq : SubQC) : String :=
  if sq.subSelects.isEmpty then ""
  else
    ", " ++ String.intercalate ", " (sq.subSelects.map (fun ss =>
      "(SELECT " ++ ss.formula ++ " FROM " ++ sq.table.als ++
      (if sq.whereRaw = "" then "" else " WHERE " ++ sq.whereRaw) ++ ") " ++ quoteGo ss.cname))

/-- A join: its table plus direction, join type, field name, reference
flag and suppression flag. -/
structure JoinC where
  table : QTableC
  direction : String
  joinType : String
  fieldName : String
  reference : Bool
  suppressed : Bool

/-- Join.JoinClause: suppressed joins render empty; _parent joins use the
parent head; otherwise the field resolves in the root kind (outgoing) or
the join kind (incoming), a missing column or empty field name being the
rendering panic (none). -/
def joinClause (rootKind : KindC) (rootAls : String) (j : JoinC) : Option String :=
  if j.suppressed then some ""
  else
    let dir := if j.direction = "" then "out" else j.direction
    let jt := if j.joinType = "" then "INNER" else j.joinType
    let colRes : Option String :=
      if j.fieldName = "_parent" then some "\"_parent\"[1]"
      else
        match (if dir = "out" then columnByFieldName rootKind j.fieldName
               else columnByFieldName j.table.kind j.fieldName) with
        | none => none
        | some c => some (quoteGo c.colName)
    match colRes with
    | none => none
    | some column =>
      if j.fieldName ≠ "" then
        let a1 := if dir = "out" then j.table.als else rootAls
        let a2 := if dir = "out" then rootAls else j.table.als
        some (jt ++ " JOIN " ++ j.table.als ++ " ON ( (" ++ a1 ++ ".\"_kind\", " ++
          a1 ++ ".\"_id\") = " ++ a2 ++ "." ++ column ++ ")")
      else none

/-- Sort.SQLText. -/
structure SortM where
  als : String
  column : String
  direction : String
  deriving Repr, DecidableEq

def sortText (rootAls : String) (s : SortM) : String :=
  (if s.als = "" then rootAls else s.als) ++ "." ++ quoteGo s.column ++ " " ++
  (if s.direction = "" then "ASC" else s.direction)

/-- A Query: root table, manager schema, joins, sub-queries, global
computed columns, the query-constraint compound, and sorting. -/
structure QueryC where
  table : QTableC
  schema : String
  joins : List JoinC
  subQueries : List SubQC
  globalComputed : List CompM
  queryConds : List Cond
  queryOperand : String
  sorting : List SortM

/-- Query.GroupedBy. -/
def groupedByQ (q : QueryC) : Option QTableC :=
  if q.table.groupBy then some q.table
  else (q.joins.find? (fun j => j.table.groupBy)).map (fun j => j.table)

/-- QueryTable.IsAggregated for a table of a query whose groupedness is
given. -/
def isAggregatedT (grouped : Bool) (t : QTableC) : Bool :=
  !t.aggregates.isEmpty && grouped && !t.groupBy

/-- Query.AggregatedTables. -/
def aggregatedTables (q : QueryC) : List QTableC :=
  let g := (groupedByQ q).isSome
  (if isAggregatedT g q.table then [q.table] else []) ++
    q.joins.filterMap (fun j => if isAggregatedT g j.table then some j.table else none)

def optionMapM {α β : Type} (f : α → Option β) : List α → Option (List β)
  | [] => some []
  | x :: rest =>
    match f x with
    | none => none
    | some y =>
      match optionMapM f rest with
      | none => none
      | some ys => some (y :: ys)

/-- The effective root alias: Query.SQLText replaces an empty alias with
k before rendering. -/
def rootAlias (q : QueryC) : String :=
  if q.table.als = "" then "k" else q.table.als

/-- The context in which the WITH bodies render their conditions: no alias
prefix (queryConstraint is false there). -/
def ctxTables (q : QueryC) : CondCtx :=
  { schema := q.schema, aliasPfx := "", rootQtn := q.table.kind.qtn,
    selWhereFalse :=
      if q.queryConds.isEmpty then ""
      else "WHERE " ++ fragsJoin (condListFrags
        { schema := q.schema, aliasPfx := "", rootQtn := q.table.kind.qtn,
          selWhereFalse := "" }
        q.queryConds (defaultOp q.queryOperand)) }

/-- The context of the final query-constraint WHERE: alias-prefixed. -/
def ctxQueryConstraint (q : QueryC) : CondCtx :=
  { ctxTables q with aliasPfx := rootAlias q ++ "." }

/-- The rendered fragment list, given the already-rendered join clauses. -/
def queryFragsCore (q : QueryC) (jcs : List String) : List Frag :=
  let rAls := rootAlias q
  let rootT := { q.table with als := rAls }
  let opQC := defaultOp q.queryOperand
  let ctxT := ctxTables q
  let ctxQ := ctxQueryConstraint q
  (
      [.lit "\nWITH \n\t"] ++ withTableFrags ctxT rootT ++
      (q.joins.flatMap (fun j => [.lit ",\n\t\t"] ++ withTableFrags ctxT j.table)) ++
      (q.subQueries.flatMap (fun sq => [.lit ",\n\t\t"] ++ withTableFrags ctxT sq.table)) ++
      [.lit "\nSELECT\n\t"] ++
      [.lit (match groupedByQ q with
        | some t =>
          selectFromText t ++
          String.join ((aggregatedTables q).map (fun at2 =>
            String.join (at2.aggregates.map (fun a => ", " ++ aggText at2.als a)))) ++
          String.join (q.subQueries.map (fun sq => "\n" ++ sqSelectText sq)) ++
          String.join (q.globalComputed.map (fun cm => ", " ++ compFormula cm))
        | none =>
          selectFromText rootT ++
          String.join (q.subQueries.map (fun sq => "\n" ++ sqSelectText sq)) ++
          String.join (q.globalComputed.map (fun cm => ", " ++ compFormula cm)) ++
          String.join (q.joins.map (fun j => ", " ++ selectFromText j.table)))] ++
      [.lit ("\n\tFROM " ++ rAls ++ "\n\t" ++ String.join (jcs.map (fun c => c ++ " ")))] ++
      (if q.queryConds.isEmpty then []
       else .lit "WHERE " :: condListFrags ctxQ q.queryConds opQC) ++
      [.lit (match groupedByQ q with
        | some t =>
          "\n\tGROUP BY " ++ t.als ++ ".\"_kind\", " ++ t.als ++ ".\"_parent\"," ++
            t.als ++ ".\"_id\"" ++
            String.join (t.kind.columns.map (fun c => ", \n\t\t\t " ++ sqlTextIn c t.als false))
        | none => "")] ++
      [.lit ("\n\tORDER BY" ++
        String.join (q.sorting.map (fun s => " " ++ sortText rAls s ++ ",")) ++
        " " ++ rAls ++ ".\"_id\" ASC \n")])

/-- The querySQL template applied to a query (Query.SQLText): the WITH
section (root, joins, sub-queries), the grouped or ungrouped SELECT list,
FROM plus join clauses, the query-constraint WHERE, GROUP BY when grouped,
and ORDER BY. A join that cannot render is the template panic (none). An
empty root alias becomes k first. The GlobalComputed alias-fixup loop of
SQLText ranges over value copies and is a no-op, so global computed columns
render with their stored aliases. A HasMaxValue inside the query
constraint itself would make the Go renderer recurse forever; its embedded
clause is rendered empty here and such conditions are outside every
discipline used below. -/
def queryFrags (q : QueryC) : Option (List Frag) :=
  (optionMapM (joinClause q.table.kind (rootAlias q)) q.joins).map (queryFragsCore q)

/-- The values one table contributes in Query.SQL: its compound's values
once, repeated once more per derived kind when WithDerived is set. -/
def tableVals (t : QTableC) : List Val :=
  condListVals t.conditions ++
    (if t.withDerived then
      t.kind.derivedKinds.flatMap (fun _ => condListVals t.conditions)
    else [])

/-- Query.SQL value collection: root table, joins in order, sub-queries
once each (never repeated for derived kinds), then the query constraint. -/
def querySQLValues (q : QueryC) : List Val :=
  tableVals q.table ++
  q.joins.flatMap (fun j => tableVals j.table) ++
  q.subQueries.flatMap (fun sq => condListVals sq.table.conditions) ++
  condListVals q.queryConds

/-- The discipline of the amended claim: all conditions everywhere satisfy
condOK, and no sub-query combines WithDerived with derived kinds and
conditions (the template repeats such clauses, Query.SQL does not repeat
their values). -/
def queryOK (q : QueryC) : Bool :=
  condListOK q.table.conditions &&
  q.joins.all (fun j => condListOK j.table.conditions) &&
  q.subQueries.all (fun sq => condListOK sq.table.conditions &&
    !(sq.table.withDerived && !sq.table.kind.derivedKinds.isEmpty &&
      !sq.table.conditions.isEmpty)) &&
  condListOK q.queryConds

/-- The kind of the sample queries below: no columns, no derived kinds. -/
def cxKindC : KindC :=
  { kname := "test.product", qtn := "\"grumble\".\"product\"",
    columns := [], derivedKinds := [] }

/-- A sample query whose only condition is a raw-SQL SimpleCondition
carrying one bound parameter but no placeholder text. -/
def cxQueryC : QueryC :=
  { table :=
      { kind := cxKindC, withDerived := false, als := "",
        conditions := [Cond.simple "1 = 1" [.i 42]],
        operand := "", groupBy := false, computed := [], aggregates := [] },
    schema := "grumble", joins := [], subQueries := [],
    globalComputed := [], queryConds := [], queryOperand := "", sorting := [] }

/-- A fruit kind with one column and one derived kind. -/
def wKindC : KindC :=
  { kname := "test.fruit", qtn := "\"grumble\".\"fruit\"",
    columns := [{ fieldName := "Name", colName := "Name", formula := "", conv := .basic }],
    derivedKinds := [("test.apple", "\"grumble\".\"apple\"")] }

/-- A sample disciplined query: a predicate condition on a root table with
derived expansion, and one query constraint. -/
def wQueryC : QueryC :=
  { table :=
      { kind := wKindC, withDerived := true, als := "",
        conditions := [Cond.predicate "__alias__.\"Name\"" "=" (.s "Apple")],
        operand := "", groupBy := false, computed := [], aggregates := [] },
    schema := "grumble", joins := [], subQueries := [],
    globalComputed := [], queryConds := [Cond.hasId 7], queryOperand := "",
    sorting := [] }

end Grumble

-- ======================= THEOREMS =======================

namespace Grumble

theorem natDecAux_irrel (n : Nat) : ∀ fuel, n < fuel → natDecAux fuel n = natDec n := by
  induction n using Nat.strong_induction_on with
  | _ n ih =>
    intro fuel hf
    match fuel with
    | f + 1 =>
      show natDecAux (f + 1) n = natDecAux (n + 1) n
      by_cases h : n < 10
      · simp [natDecAux, h]
      · have hd : n / 10 < n := Nat.div_lt_self (by omega) (by omega)
        simp only [natDecAux, if_neg h]
        rw [ih (n / 10) hd f (by omega), ih (n / 10) hd n (by omega)]

theorem natDec_eq (n : Nat) :
    natDec n = if n < 10 then [digitChar n] else natDec (n / 10) ++ [digitChar (n % 10)] := by
  show natDecAux (n + 1) n = _
  by_cases h : n < 10
  · simp [natDecAux, h]
  · simp only [natDecAux, if_neg h]
    have hd : n / 10 < n := Nat.div_lt_self (by omega) (by omega)
    rw [natDecAux_irrel (n / 10) n (by omega)]

theorem natDec_ne_nil (n : Nat) : natDec n ≠ [] := by
  rw [natDec_eq]
  split <;> simp

theorem natDec_digits (n : Nat) : ∀ c ∈ natDec n, 48 ≤ c.toNat ∧ c.toNat ≤ 57 := by
  induction n using Nat.strong_induction_on with
  | _ n ih =>
    rw [natDec_eq]
    split
    · next h =>
      intro c hc
      simp only [List.mem_singleton] at hc
      subst hc
      interval_cases n <;> decide
    · next h =>
      intro c hc
      rw [List.mem_append] at hc
      rcases hc with hc | hc
      · exact ih (n / 10) (Nat.div_lt_self (by omega) (by omega)) c hc
      · simp only [List.mem_singleton] at hc
        subst hc
        have hm : n % 10 < 10 := Nat.mod_lt _ (by omega)
        set m := n % 10 with hmd
        clear_value m
        interval_cases m <;> decide

theorem natDec_head_ne_zero (n : Nat) (hn : 0 < n) :
    ∀ c, (natDec n).head? = some c → c ≠ '0' := by
  induction n using Nat.strong_induction_on with
  | _ n ih =>
    rw [natDec_eq]
    split
    · next h =>
      intro c hc
      simp only [List.head?] at hc
      injection hc with hc
      subst hc
      interval_cases n
      all_goals first | omega | decide
    · next h =>
      intro c hc
      have hne := natDec_ne_nil (n / 10)
      rw [List.head?_append_of_ne_nil _ hne] at hc
      exact ih (n / 10) (Nat.div_lt_self (by omega) (by omega)) (by omega) c hc

theorem digitChar_baseVal (d : Nat) (hd : d < 10) :
    baseDigitVal 10 (digitChar d) = some d := by
  interval_cases d <;> rfl

theorem parseBaseDigits_append (b : Nat) (l1 l2 : List Char) :
    parseBaseDigits b (l1 ++ l2) =
      (parseBaseDigits b l1).bind (fun a =>
        l2.foldl (fun acc c =>
          match acc with
          | none => none
          | some a =>
            match baseDigitVal b c with
            | none => none
            | some v => some (a * b + v)) (some a)) := by
  simp only [parseBaseDigits, List.foldl_append]
  cases h : List.foldl _ (some 0) l1 <;> simp [h]
  · induction l2 <;> simp_all

theorem parseBaseDigits_natDec (n : Nat) : parseBaseDigits 10 (natDec n) = some n := by
  induction n using Nat.strong_induction_on with
  | _ n ih =>
    rw [natDec_eq]
    split
    · next h =>
      simp only [parseBaseDigits, List.foldl_cons, List.foldl_nil]
      rw [digitChar_baseVal n h]
      simp
    · next h =>
      rw [parseBaseDigits_append, ih (n / 10) (Nat.div_lt_self (by omega) (by omega))]
      simp only [Option.bind_some, List.foldl_cons, List.foldl_nil]
      rw [digitChar_baseVal (n % 10) (Nat.mod_lt _ (by omega))]
      simp only [Option.some_bind, Option.some.injEq]
      omega

theorem noAdjacentUnderscores_of_not_mem (l : List Char) (h : '_' ∉ l) :
    noAdjacentUnderscores l = true := by
  induction l with
  | nil => rfl
  | cons c t ih =>
    match t, ih with
    | [], _ => rfl
    | c2 :: t2, ih =>
      have hc : c ≠ '_' := fun hc => h (hc ▸ List.mem_cons_self _ _)
      have ht : '_' ∉ c2 :: t2 := fun hm => h (List.mem_cons_of_mem _ hm)
      simp only [noAdjacentUnderscores, Bool.and_eq_true]
      exact ⟨by simp [hc], ih ht⟩

theorem underscoresOK_of_not_mem (l : List Char) (h : '_' ∉ l) : underscoresOK l = true := by
  unfold underscoresOK
  match l with
  | [] => rfl
  | c :: t =>
    simp only [Bool.and_eq_true, Bool.not_eq_true']
    refine ⟨⟨?_, ?_⟩, noAdjacentUnderscores_of_not_mem _ h⟩
    · simp only [List.head?, beq_eq_false_iff_ne, ne_eq]
      intro hc
      injection hc with hc
      exact h (hc ▸ List.mem_cons_self _ _)
    · simp only [beq_eq_false_iff_ne, ne_eq]
      intro hc
      have hmem : '_' ∈ (c :: t).getLast? := hc
      obtain ⟨hne, heq⟩ := List.mem_getLast?_eq_getLast hmem
      exact h (heq ▸ List.getLast_mem hne)

theorem natDec_no_underscore (n : Nat) : '_' ∉ natDec n := by
  intro h
  exact absurd (natDec_digits n _ h) (by decide)

theorem natDec_filter_underscore (n : Nat) :
    (natDec n).filter (· ≠ '_') = natDec n := by
  rw [List.filter_eq_self]
  intro c hc
  have hd := natDec_digits n c hc
  simp only [ne_eq, decide_eq_true_eq]
  intro hce
  subst hce
  exact absurd hd (by decide)

theorem natDec_len2_ge_ten (n : Nat) (c c2 : Char) (t : List Char)
    (h : natDec n = c :: c2 :: t) : 10 ≤ n := by
  rcases Nat.lt_or_ge n 10 with hlt | hge
  · rw [natDec_eq, if_pos hlt] at h
    simp at h
  · exact hge

theorem baseSplit_natDec (l : List Char) (n : Nat) (hl : l = natDec n)
    (hn : 0 < n ∨ l.length = 1) :
    (baseSplit l = (10, l)) := by
  subst hl
  rcases h : natDec n with _ | ⟨c, t⟩
  · exact absurd h (natDec_ne_nil n)
  rcases t with _ | ⟨c2, t2⟩
  · rfl
  · have h10 := natDec_len2_ge_ten n c c2 t2 h
    have hc : c ≠ '0' := by
      apply natDec_head_ne_zero n (by omega)
      rw [h]; rfl
    simp only [baseSplit, if_neg hc]

theorem isEmpty_false_of_ne_nil {α : Type} (l : List α) (h : l ≠ []) :
    l.isEmpty = false := by
  cases l <;> simp_all

theorem parseIntGo_intRepr (i : Int) (hlo : (-(2 ^ 63) : Int) ≤ i) (hhi : i ≤ 2 ^ 63 - 1) :
    parseIntGo (intRepr i) = .ok i := by
  rw [show ((2 : Int) ^ 63) = 9223372036854775808 by norm_num] at hlo hhi
  have hemp : ∀ m : Nat, (natDec m).isEmpty = false :=
    fun m => isEmpty_false_of_ne_nil _ (natDec_ne_nil m)
  have hund : ∀ m : Nat, underscoresOK (natDec m) = true :=
    fun m => underscoresOK_of_not_mem _ (natDec_no_underscore m)
  by_cases hneg : i < 0
  · have hdata : (intRepr i).data = '-' :: natDec ((-i).toNat) := by
      simp [intRepr, if_pos hneg]
    have hsign : signSplit ('-' :: natDec ((-i).toNat)) = (true, natDec ((-i).toNat)) := by
      simp [signSplit]
    have hbase : baseSplit (natDec ((-i).toNat)) = (10, natDec ((-i).toNat)) := by
      apply baseSplit_natDec _ ((-i).toNat) rfl
      left; omega
    have hrange : ¬ ((9223372036854775808 : Nat) < (-i).toNat) := by omega
    unfold parseIntGo
    rw [hdata]
    simp only [hsign, hbase]
    rw [natDec_filter_underscore, parseBaseDigits_natDec]
    simp [hemp, hund]
    rw [if_neg (show ¬ (9223372036854775808 : Int) < -i by omega)]
    simp only [Except.ok.injEq, sup_eq_max]
    rw [max_eq_left (by omega : (0 : Int) ≤ -i)]
    omega
  · have hdata : (intRepr i).data = natDec i.toNat := by
      simp [intRepr, if_neg hneg]
    have hsign : signSplit (natDec i.toNat) = (false, natDec i.toNat) := by
      rcases h : natDec i.toNat with _ | ⟨c, t⟩
      · exact absurd h (natDec_ne_nil _)
      have hd := natDec_digits i.toNat c (h ▸ List.mem_cons_self _ _)
      have hplus : c ≠ '+' := by
        intro hc; rw [hc] at hd; exact absurd hd (by decide)
      have hminus : c ≠ '-' := by
        intro hc; rw [hc] at hd; exact absurd hd (by decide)
      simp [signSplit, hplus, hminus]
    have hbase : baseSplit (natDec i.toNat) = (10, natDec i.toNat) := by
      apply baseSplit_natDec _ i.toNat rfl
      by_cases hz : i.toNat = 0
      · right
        rw [hz]
        rfl
      · left; omega
    have hrange : ¬ ((9223372036854775807 : Nat) < i.toNat) := by omega
    unfold parseIntGo
    rw [hdata]
    simp only [hsign, hbase]
    rw [natDec_filter_underscore, parseBaseDigits_natDec]
    simp [hemp, hund]
    rw [if_neg (show ¬ (9223372036854775807 : Int) < i by omega)]
    simp only [Except.ok.injEq, sup_eq_max]
    rw [max_eq_left (by omega : (0 : Int) ≤ i)]

theorem canonKey_links (ls : List (String × Int)) : (canonKey ls).links = ls := by
  induction ls with
  | nil => rfl
  | cons l rest ih =>
    cases l
    simp [canonKey, GoKey.links, ih]

theorem canonKey_endsInZero (ls : List (String × Int)) :
    (canonKey ls).endsInZero = true := by
  induction ls with
  | nil => rfl
  | cons l rest ih =>
    cases l
    simpa [canonKey, GoKey.endsInZero] using ih

theorem flatMap_id_of_singleton {α : Type} (f : α → List α) (l : List α)
    (h : ∀ c ∈ l, f c = [c]) : l.flatMap f = l := by
  induction l with
  | nil => rfl
  | cons c t ih =>
    simp only [List.flatMap_cons, h c (List.mem_cons_self _ _),
      ih (fun d hd => h d (List.mem_cons_of_mem _ hd)), List.singleton_append]

theorem quoteGo_data (s : String) (h : ∀ c ∈ s.data, c ≠ quoteC ∧ c ≠ '\\') :
    (quoteGo s).data = quoteC :: s.data ++ [quoteC] := by
  show quoteC :: s.data.flatMap _ ++ [quoteC] = _
  rw [flatMap_id_of_singleton _ _ (fun c hc => by
    obtain ⟨h1, h2⟩ := h c hc
    simp [h1, h2])]

theorem intRepr_chars (i : Int) :
    ∀ c ∈ (intRepr i).data, (48 ≤ c.toNat ∧ c.toNat ≤ 57) ∨ c = '-' := by
  intro c hc
  unfold intRepr at hc
  split at hc
  · simp only [List.mem_cons] at hc
    rcases hc with hc | hc
    · right; exact hc
    · left; exact natDec_digits _ c hc
  · left; exact natDec_digits _ c hc

theorem keepChar_of_digit_or_minus (c : Char)
    (h : (48 ≤ c.toNat ∧ c.toNat ≤ 57) ∨ c = '-') : keepChar c = true := by
  rcases h with h | h
  · simp only [keepChar, stripSet, decide_not, Bool.not_eq_true',
      decide_eq_false_iff_not]
    intro hmem
    simp only [List.contains_cons, Bool.or_eq_true, beq_iff_eq, List.contains_nil,
      Bool.or_false] at hmem
    rcases hmem with he | he | he | he | he | he <;>
      (subst he; exact absurd h (by decide))
  · subst h; decide

theorem ne_comma_of_digit_or_minus (c : Char)
    (h : (48 ≤ c.toNat ∧ c.toNat ≤ 57) ∨ c = '-') : c ≠ ',' := by
  rcases h with h | h
  · intro he; subst he; exact absurd h (by decide)
  · subst h; decide

theorem ne_quote_of_digit_or_minus (c : Char)
    (h : (48 ≤ c.toNat ∧ c.toNat ≤ 57) ∨ c = '-') : c ≠ quoteC ∧ c ≠ '\\' := by
  rcases h with h | h
  · constructor <;> (intro he; subst he; exact absurd h (by decide))
  · subst h; decide

theorem cleanKindChar_props (c : Char) (h : cleanKindChar c = true) :
    keepChar c = true ∧ c ≠ ',' ∧ c ≠ quoteC ∧ c ≠ '\\' := by
  simp only [cleanKindChar, Bool.and_eq_true, decide_eq_true_eq] at h
  obtain ⟨h1, h2, h3⟩ := h
  refine ⟨h1, h2, ?_, h3⟩
  intro he
  subst he
  exact absurd h1 (by decide)

theorem data_append (a b : String) : (a ++ b).data = a.data ++ b.data := rfl

theorem keyString_clean_data (n : String) (i : Int) :
    (keyString (.mk (some n) i .nil)).data = '(' :: (n.data ++ ',' :: ((intRepr i).data ++ [')'])) := by
  show ("(" ++ n ++ "," ++ intRepr i ++ ")").data = _
  rw [data_append, data_append, data_append, data_append]
  simp [List.append_assoc]

theorem joinSep_cons_cons (sep : List Char) (x y : List Char) (r : List (List Char)) :
    joinSep sep (x :: y :: r) = x ++ sep ++ joinSep sep (y :: r) := rfl

theorem strip_quoted_part (n : String) (i : Int) (hclean : n.data.all cleanKindChar = true) :
    ((quoteGo (keyString (.mk (some n) i .nil))).data).filter keepChar =
      n.data ++ ',' :: (intRepr i).data := by
  have hcl : ∀ c ∈ n.data, cleanKindChar c = true := by
    intro c hc; exact List.all_eq_true.mp hclean c hc
  have hq : keepChar quoteC = false := by decide
  have hp1 : keepChar '(' = false := by decide
  have hp2 : keepChar ')' = false := by decide
  have hcm : keepChar ',' = true := by decide
  have hn : n.data.filter keepChar = n.data :=
    List.filter_eq_self.mpr (fun c hc => (cleanKindChar_props c (hcl c hc)).1)
  have hi : (intRepr i).data.filter keepChar = (intRepr i).data :=
    List.filter_eq_self.mpr (fun c hc => keepChar_of_digit_or_minus c (intRepr_chars i c hc))
  rw [quoteGo_data]
  · rw [keyString_clean_data]
    simp [List.filter_append, List.filter_cons, hq, hp1, hp2, hcm, hn, hi]
  · intro c hc
    rw [keyString_clean_data] at hc
    have hcases : c = '(' ∨ c ∈ n.data ∨ c = ',' ∨ c ∈ (intRepr i).data ∨ c = ')' := by
      simpa using hc
    rcases hcases with hc | hc | hc | hc | hc
    · subst hc; decide
    · exact ((cleanKindChar_props c (hcl c hc)).2.2)
    · subst hc; decide
    · exact ne_quote_of_digit_or_minus c (intRepr_chars i c hc)
    · subst hc; decide

theorem filter_joinSep (p : Char → Bool) (parts : List (List Char))
    (hp : p ',' = true) :
    (joinSep [','] parts).filter p = joinSep [','] (parts.map (List.filter p)) := by
  induction parts with
  | nil => rfl
  | cons a rest ih =>
    match rest, ih with
    | [], _ => rfl
    | b :: more, ih =>
      simp only [List.map_cons] at ih ⊢
      rw [joinSep_cons_cons]
      rw [List.filter_append, List.filter_append, ih]
      simp [List.filter_cons, hp, joinSep_cons_cons]

theorem joinSep_pairs (links : List (String × Int)) :
    joinSep [','] (links.map (fun l => l.1.data ++ ',' :: (intRepr l.2).data)) =
      joinSep [','] (links.flatMap (fun l => [l.1.data, (intRepr l.2).data])) := by
  induction links with
  | nil => rfl
  | cons a rest ih =>
    cases rest with
    | nil => simp [joinSep]
    | cons b more =>
      simp only [List.map_cons, List.flatMap_cons, List.cons_append, List.nil_append] at ih ⊢
      rw [joinSep_cons_cons, ih]
      simp [joinSep_cons_cons, List.append_assoc]

theorem strip_chainStr (k : GoKey)
    (h : ∀ l ∈ k.links, l.1.data.all cleanKindChar = true) :
    (stripDelims (chainStr k)).data = joinSep [','] (chainPieces k) := by
  have hbo : keepChar braceO = false := by decide
  have hbc : keepChar braceC = false := by decide
  show List.filter keepChar (braceO :: joinSep [','] _ ++ [braceC]) = _
  have hsplit : (braceO :: joinSep [',']
      (k.links.map (fun l => (quoteGo (keyString (.mk (some l.1) l.2 .nil))).data)) ++ [braceC]) =
      [braceO] ++ joinSep [',']
      (k.links.map (fun l => (quoteGo (keyString (.mk (some l.1) l.2 .nil))).data)) ++ [braceC] := by
    simp
  rw [hsplit, List.filter_append, List.filter_append]
  rw [filter_joinSep _ _ (by decide)]
  have hmaps : (k.links.map (fun l => (quoteGo (keyString (.mk (some l.1) l.2 .nil))).data)).map
      (List.filter keepChar) = k.links.map (fun l => l.1.data ++ ',' :: (intRepr l.2).data) := by
    rw [List.map_map]
    apply List.map_congr_left
    intro l hl
    exact strip_quoted_part l.1 l.2 (h l hl)
  rw [hmaps, joinSep_pairs]
  simp [chainPieces, List.filter_cons, hbo, hbc]

theorem splitOn_joinSep (pieces : List (List Char)) (hne : pieces ≠ [])
    (hcomma : ∀ p ∈ pieces, ∀ c ∈ p, c ≠ ',') :
    (joinSep [','] pieces).splitOn ',' = pieces := by
  induction pieces with
  | nil => exact absurd rfl hne
  | cons a rest ih =>
    match rest, ih with
    | [], _ =>
      show a.splitOn ',' = [a]
      unfold List.splitOn
      exact List.splitOnP_eq_single _ _
        (fun c hc => by simpa using hcomma a (List.mem_cons_self _ _) c hc)
    | b :: more, ih =>
      show (a ++ [','] ++ joinSep [','] (b :: more)).splitOn ',' = _
      rw [List.append_assoc, List.singleton_append]
      unfold List.splitOn
      rw [List.splitOnP_first _ _
        (fun c hc => by simpa using hcomma a (List.mem_cons_self _ _) c hc) ',' (by simp)]
      congr 1
      exact ih (by simp) (fun p hp c hc => hcomma p (List.mem_cons_of_mem _ hp) c hc)

theorem chainPieces_length (k : GoKey) : (chainPieces k).length = 2 * k.links.length := by
  unfold chainPieces
  induction k.links with
  | nil => rfl
  | cons a rest ih => simp_all [List.flatMap_cons]; omega

theorem toPairs_chainPieces (links : List (String × Int)) :
    toPairs ((links.flatMap (fun l => [l.1.data, (intRepr l.2).data])).map
      (fun l => (⟨l⟩ : String))) = links.map (fun l => (l.1, intRepr l.2)) := by
  induction links with
  | nil => rfl
  | cons a rest ih =>
    simp only [List.flatMap_cons, List.map_append, List.map_cons, List.map_nil]
    show toPairs ((⟨a.1.data⟩ : String) :: (⟨(intRepr a.2).data⟩ : String) :: _) = _
    rw [toPairs]
    simp only [List.map_cons, List.cons.injEq]
    exact ⟨trivial, ih⟩

theorem buildChain_canon (reg : List String) (links : List (String × Int))
    (h : ∀ l ∈ links, linkOK reg l = true) :
    buildChain reg (links.map (fun l => (l.1, intRepr l.2))) = .ok (canonKey links) := by
  induction links with
  | nil => rfl
  | cons a rest ih =>
    have ha := h a (List.mem_cons_self _ _)
    simp only [linkOK, Bool.and_eq_true, decide_eq_true_eq] at ha
    obtain ⟨hne, hnorm, hcont, _, hlo, hhi⟩ := ha
    have hrest := ih (fun l hl => h l (List.mem_cons_of_mem _ hl))
    simp only [List.map_cons, buildChain, hrest]
    show (Except.ok (canonKey rest)).bind _ = _
    simp only [Except.bind]
    rw [if_neg hne]
    unfold getKindForKindM
    rw [hnorm, if_pos hcont]
    show (parseIntGo (intRepr a.2)).bind _ = _
    rw [parseIntGo_intRepr a.2 hlo hhi]
    rfl

theorem linksOK_clean (reg : List String) (k : GoKey)
    (h : ∀ l ∈ k.links, linkOK reg l = true) :
    ∀ p ∈ chainPieces k, ∀ c ∈ p, c ≠ ',' := by
  intro p hp c hc
  unfold chainPieces at hp
  rw [List.mem_flatMap] at hp
  obtain ⟨l, hl, hpl⟩ := hp
  have hok := h l hl
  simp only [linkOK, Bool.and_eq_true, decide_eq_true_eq] at hok
  simp only [List.mem_cons, List.mem_singleton] at hpl
  rcases hpl with hpl | hpl | hpl
  · subst hpl
    exact (cleanKindChar_props c (List.all_eq_true.mp hok.2.2.2.1 c hc)).2.1
  · subst hpl
    exact ne_comma_of_digit_or_minus c (intRepr_chars l.2 c hc)
  · exact absurd hpl (by simp)

/-- C1 helper: the full parse of a formatted chain. -/
theorem parseKey_chainStr (reg : List String) (k : GoKey)
    (h : ∀ l ∈ k.links, linkOK reg l = true) :
    parseKey reg (chainStr k) = .ok (canonKey k.links) := by
  have hclean : ∀ l ∈ k.links, l.1.data.all cleanKindChar = true := by
    intro l hl
    have hok := h l hl
    simp only [linkOK, Bool.and_eq_true, decide_eq_true_eq] at hok
    exact hok.2.2.2.1
  have hstrip := strip_chainStr k hclean
  unfold parseKey
  rcases hlk : k.links with _ | ⟨a, rest⟩
  · have hz : stripDelims (chainStr k) = "" := by
      apply String.ext
      rw [hstrip]
      unfold chainPieces
      rw [hlk]
      rfl
    rw [if_pos hz]
    rfl
  · have hok := h a (by rw [hlk]; exact List.mem_cons_self _ _)
    have hne1 : a.1.data ≠ [] := by
      simp only [linkOK, Bool.and_eq_true, decide_eq_true_eq] at hok
      intro hd
      exact hok.1 (String.ext hd)
    have hpieces : chainPieces k = a.1.data :: (intRepr a.2).data ::
        (rest.flatMap (fun l => [l.1.data, (intRepr l.2).data])) := by
      unfold chainPieces; rw [hlk]; rfl
    have hnz : stripDelims (chainStr k) ≠ "" := by
      intro he
      have hd := congrArg String.data he
      rw [hstrip, hpieces, joinSep_cons_cons] at hd
      simp only [List.append_assoc, List.append_eq_nil] at hd
      exact hne1 hd.1
    rw [if_neg hnz, hstrip]
    rw [splitOn_joinSep _ (by rw [hpieces]; simp) (linksOK_clean reg k h)]
    unfold buildKeyChain
    rw [if_neg (by
      rw [List.length_map, chainPieces_length, hlk]
      simp)]
    rw [if_neg (by
      rw [List.length_map, chainPieces_length, hlk]
      simp only [List.length_cons]
      omega)]
    have hfl : chainPieces k = (a :: rest).flatMap (fun l => [l.1.data, (intRepr l.2).data]) := by
      unfold chainPieces; rw [hlk]
    rw [hfl, toPairs_chainPieces, buildChain_canon reg (a :: rest) (by rw [← hlk]; exact h)]

/-- C1: Key parse/format round-trip.  For every key whose links all carry a
registered, normalized, clean kind name and a 64-bit ident, parsing the
textual chain produced by Key.Chain succeeds and yields a key with the same
kind and ident at every level, terminating in the zero key. -/
theorem claim_C1_key_roundtrip (reg : List String) (k : GoKey)
    (h : ∀ l ∈ k.links, linkOK reg l = true) :
    ∃ k2, parseKey reg (chainStr k) = .ok k2 ∧
      k2.links = k.links ∧ k2.endsInZero = true :=
  ⟨canonKey k.links, parseKey_chainStr reg k h, canonKey_links _, canonKey_endsInZero _⟩

theorem claim_C1_key_roundtrip_witness :
    (∀ l ∈ (GoKey.mk (some "fruit") 1 (GoKey.mk (some "groceries") 7 .nil)).links,
      linkOK ["fruit", "groceries"] l = true) ∧
    (∃ k2, parseKey ["fruit", "groceries"]
        (chainStr (GoKey.mk (some "fruit") 1 (GoKey.mk (some "groceries") 7 .nil))) = .ok k2 ∧
      k2.links = (GoKey.mk (some "fruit") 1 (GoKey.mk (some "groceries") 7 .nil)).links ∧
      k2.endsInZero = true) :=
  ⟨by decide, claim_C1_key_roundtrip ["fruit", "groceries"] _ (by decide)⟩

/-- C10: ParseKey maps the empty string, and any string containing only the
stripped delimiter characters, to the ZeroKey sentinel with no error, while
a non-empty chain with an odd number of comma-separated components is an
error. -/
theorem claim_C10_parse_edge_cases (reg : List String) (s : String) :
    (stripDelims s = "" → parseKey reg s = .ok ZeroKey) ∧
    (stripDelims s ≠ "" →
      ((stripDelims s).data.splitOn ',').length % 2 = 1 →
      ∃ m, parseKey reg s = .error m) := by
  constructor
  · intro h
    unfold parseKey
    rw [if_pos h]
  · intro hne hodd
    unfold parseKey
    rw [if_neg hne]
    unfold buildKeyChain
    rw [List.length_map, if_neg (by omega), if_pos (by omega)]
    exact ⟨_, rfl⟩

theorem claim_C10_parse_edge_cases_witness :
    (stripDelims "\x7b( )\x7d\"" = "" ∧ parseKey [] "\x7b( )\x7d\"" = .ok ZeroKey) ∧
    (stripDelims "a,1,b" ≠ "" ∧ ((stripDelims "a,1,b").data.splitOn ',').length % 2 = 1 ∧
      ∃ m, parseKey [] "a,1,b" = .error m) :=
  ⟨⟨by decide, (claim_C10_parse_edge_cases [] _).1 (by decide)⟩,
   ⟨by decide, by decide, (claim_C10_parse_edge_cases [] "a,1,b").2 (by decide) (by decide)⟩⟩


theorem strAppend_assoc (a b c : String) : (a ++ b) ++ c = a ++ (b ++ c) :=
  String.ext (by simp [data_append, List.append_assoc])

theorem strAppend_empty (a : String) : a ++ "" = a :=
  String.ext (by simp [data_append])

theorem fragsJoin_append (l1 l2 : List Frag) :
    fragsJoin (l1 ++ l2) = fragsJoin l1 ++ fragsJoin l2 := by
  induction l1 with
  | nil =>
    show fragsJoin l2 = "" ++ fragsJoin l2
    exact (String.ext (by simp [data_append])).symm
  | cons f rest ih =>
    show fragStr f ++ fragsJoin (rest ++ l2) = (fragStr f ++ fragsJoin rest) ++ fragsJoin l2
    rw [ih, strAppend_assoc]

theorem refParamFrags_join (schema : String) (rs : List GoKey) :
    fragsJoin (refParamFrags schema rs) = claimParams schema rs.length := by
  induction rs with
  | nil => rfl
  | cons k rest ih =>
    cases rest with
    | nil =>
      show "__count__" ++ (("::" ++ schema ++ ".\"Reference\"") ++ "") = _
      rw [strAppend_empty]
      rfl
    | cons k2 more =>
      show fragsJoin (.cnt (.s (keyString k)) :: .lit ("::" ++ schema ++ ".\"Reference\"") ::
        .lit ", " :: refParamFrags schema (k2 :: more)) = _
      show "__count__" ++ (("::" ++ schema ++ ".\"Reference\"") ++ (", " ++
        fragsJoin (refParamFrags schema (k2 :: more)))) = _
      rw [ih]
      show _ = ("__count__::" ++ schema ++ ".\"Reference\"") ++ ", " ++
        claimParams schema (k2 :: more).length
      apply String.ext
      simp [data_append, List.append_assoc]

theorem fragsJoin_params_tail (schema : String) (rs : List GoKey) (x : String) :
    (fragsJoin (refParamFrags schema rs ++ [.lit x])).data =
      (claimParams schema rs.length).data ++ x.data := by
  rw [fragsJoin_append, refParamFrags_join]
  show ((claimParams schema rs.length) ++ (x ++ "")).data = _
  simp [data_append]

theorem refWhere_eq_matrix (schema als col : String) (refs : Option (List GoKey))
    (hz invert : Bool) :
    fragsJoin (refWhereFrags schema als col refs hz invert) =
      claimMatrix schema als col (refs, hz) invert := by
  rcases refs with _ | rs
  · cases invert <;> cases hz <;>
      simp [refWhereFrags, claimMatrix, fragsJoin, fragStr, strAppend_empty]
  · cases invert <;> cases hz <;>
      (simp only [refWhereFrags, claimMatrix, fragsJoin, fragStr]
       apply String.ext
       simp [data_append, fragsJoin_params_tail, List.append_assoc])

/-- With no zero or nil entities, the kept list of an entity slice under the
claim normalization is the code kept list. -/
theorem isZero_false_of_not_zeroOrNil (k : GoKey) (h : isZeroOrNilKey k = false) :
    k.isZero = false := by
  cases hz : k.isZero
  · rfl
  · unfold isZeroOrNilKey at h
    rw [hz] at h
    simp at h

theorem entities_kept_eq (es : List (Option GoKey))
    (h : ∀ o ∈ es, (o.map (fun k => !(isZeroOrNilKey k))).getD true = true) :
    es.filterMap (fun o => o.bind keepNonZeroKey) = es.filterMap id := by
  apply List.filterMap_congr
  intro o ho
  rcases o with _ | k
  · rfl
  · have hk : isZeroOrNilKey k = false := by simpa using h (some k) ho
    simp [keepNonZeroKey, hk]

/-- With no zero or nil entities, the has-zero markers agree. -/
theorem entities_hasZero_eq (es : List (Option GoKey))
    (h : ∀ o ∈ es, (o.map (fun k => !(isZeroOrNilKey k))).getD true = true) :
    es.any (fun o => o.isNone || (o.map GoKey.isZero).getD false) =
      es.any (·.isNone) := by
  induction es with
  | nil => rfl
  | cons o rest ih =>
    have hr := ih (fun x hx => h x (List.mem_cons_of_mem _ hx))
    rcases o with _ | k
    · simp [List.any_cons, hr]
    · have hk : isZeroOrNilKey k = false := by
        simpa using h (some k) (List.mem_cons_self _ _)
      have hz : k.isZero = false := isZero_false_of_not_zeroOrNil k hk
      simp [List.any_cons, hr, hz]

/-- C3: the References condition renders by the section 4.5.1 matrix over
the normalization the code actually performs: zero and nil keys are removed
and set the has-zero marker, an empty remainder is treated as null, but a
non-nil entity is kept with its key even when that key is zero, and only
nil entities count as zero entries; one bound parameter is emitted per kept
reference.  On inputs without zero or nil entities this coincides with the
normalization the claim describes. -/
theorem claim_C3_references_matrix (schema als col : String) (input : RefInput)
    (invert : Bool) :
    referencesWhereClause schema als col input invert =
      claimMatrix schema als col (refNormalize input) invert ∧
    (refValues input).length = ((refNormalize input).1.getD []).length ∧
    (entityZeroFree input = true →
      referencesWhereClause schema als col input invert =
        claimReferencesWhere schema als col input invert) := by
  refine ⟨?_, ?_, ?_⟩
  · unfold referencesWhereClause
    rw [refWhere_eq_matrix]
  · unfold refValues
    rcases h : (refNormalize input).1 with _ | rs <;> simp
  · intro hfree
    unfold referencesWhereClause claimReferencesWhere
    rw [refWhere_eq_matrix]
    rcases input with _ | k | k | ks | es
    · cases invert <;> rfl
    · rfl
    · have hk : isZeroOrNilKey k = false := by
        simpa [entityZeroFree] using hfree
      have hz : k.isZero = false := isZero_false_of_not_zeroOrNil k hk
      show claimMatrix schema als col (refNormalize (.entity k)) invert =
        claimMatrix schema als col (claimNormalize (.entity k)) invert
      rw [show claimNormalize (.entity k) = refNormalize (.entity k) by
        simp [refNormalize, claimNormalize, hz]]
    · rfl
    · have hes : ∀ o ∈ es, (o.map (fun k => !(isZeroOrNilKey k))).getD true = true := by
        simpa [entityZeroFree, List.all_eq_true] using hfree
      show claimMatrix schema als col (refNormalize (.entities es)) invert =
        claimMatrix schema als col (claimNormalize (.entities es)) invert
      rw [show claimNormalize (.entities es) = refNormalize (.entities es) by
        rcases es with _ | ⟨o, rest⟩
        · rfl
        · simp only [refNormalize, claimNormalize, List.isEmpty_cons]
          rw [entities_kept_eq _ hes, entities_hasZero_eq _ hes]
          simp]

theorem claim_C3_references_matrix_witness :
    (referencesWhereClause "grumble" "k." "Prod"
        (.keys [GoKey.mk (some "fruit") 3 .nil, ZeroKey]) true =
      claimMatrix "grumble" "k." "Prod"
        (refNormalize (.keys [GoKey.mk (some "fruit") 3 .nil, ZeroKey])) true) ∧
    (refValues (.keys [GoKey.mk (some "fruit") 3 .nil, ZeroKey])).length =
      ((refNormalize (.keys [GoKey.mk (some "fruit") 3 .nil, ZeroKey])).1.getD []).length ∧
    (entityZeroFree (.keys [GoKey.mk (some "fruit") 3 .nil, ZeroKey]) = true ∧
      referencesWhereClause "grumble" "k." "Prod"
          (.keys [GoKey.mk (some "fruit") 3 .nil, ZeroKey]) true =
        claimReferencesWhere "grumble" "k." "Prod"
          (.keys [GoKey.mk (some "fruit") 3 .nil, ZeroKey]) true) :=
  ⟨(claim_C3_references_matrix "grumble" "k." "Prod" _ true).1,
   (claim_C3_references_matrix "grumble" "k." "Prod" _ true).2.1,
   by decide,
   (claim_C3_references_matrix "grumble" "k." "Prod" _ true).2.2 (by decide)⟩

theorem claim_C3_counterexample :
    referencesWhereClause "grumble" "" "Product" (.entity ZeroKey) false =
      "\"Product\" IN ( __count__::grumble.\"Reference\" )" ∧
    claimReferencesWhere "grumble" "" "Product" (.entity ZeroKey) false =
      "\"Product\" IS NULL" ∧
    referencesWhereClause "grumble" "" "Product" (.entity ZeroKey) false ≠
      claimReferencesWhere "grumble" "" "Product" (.entity ZeroKey) false := by
  refine ⟨by decide, by decide, by decide⟩


/-! ## Scanner pipeline lemmas (C4, C9) -/

theorem exceptMapM_ok_length {α β : Type} (f : α → Except String β) :
    ∀ xs ys, exceptMapM f xs = .ok ys → ys.length = xs.length := by
  intro xs
  induction xs with
  | nil =>
    intro ys h
    simp only [exceptMapM] at h
    cases h
    rfl
  | cons x rest ih =>
    intro ys h
    unfold exceptMapM at h
    rcases hf : f x with m | y <;> rw [hf] at h
    · cases h
    · rcases hr : exceptMapM f rest with m | ys2 <;> rw [hr] at h
      · cases h
      · cases h
        simp [ih ys2 hr]

theorem exceptMapM_ok_mem {α β : Type} (f : α → Except String β) :
    ∀ xs ys, exceptMapM f xs = .ok ys → ∀ y ∈ ys, ∃ x ∈ xs, f x = .ok y := by
  intro xs
  induction xs with
  | nil =>
    intro ys h y hy
    simp only [exceptMapM] at h
    cases h
    cases hy
  | cons x rest ih =>
    intro ys h y hy
    unfold exceptMapM at h
    rcases hf : f x with m | y2 <;> rw [hf] at h
    · cases h
    · rcases hr : exceptMapM f rest with m | ys2 <;> rw [hr] at h
      · cases h
      · cases h
        rcases List.mem_cons.mp hy with hy2 | hy2
        · subst hy2
          exact ⟨x, List.mem_cons_self x rest, hf⟩
        · obtain ⟨x2, hx2, hfx2⟩ := ih ys2 hr y hy2
          exact ⟨x2, List.mem_cons_of_mem x hx2, hfx2⟩

theorem scannersBuild_ok_length (scanners : List (KindT × RawScan))
    (refs : List (String × Nat)) (row : List PersistableS)
    (h : scannersBuild scanners refs = .ok row) : row.length = scanners.length := by
  unfold scannersBuild at h
  rcases hm : exceptMapM
      (fun p => entityScannerBuild p.1 p.2.kind p.2.parentKey p.2.id p.2.bag)
      scanners with m | ret <;> rw [hm] at h
  · cases h
  · rcases ret with _ | ⟨e, rest⟩
    · cases h
    · have h2 : (match wireFold (e :: rest) e refs with
          | .error m => (Except.error m : Except String (List PersistableS))
          | .ok root => Except.ok ((e :: rest).set 0 root)) = Except.ok row := h
      rcases hwf : wireFold (e :: rest) e refs with m | root <;> rw [hwf] at h2
      · cases h2
      · cases h2
        rw [List.length_set]
        exact exceptMapM_ok_length _ _ _ hm

/-- C4: row width.  When every fetched raw row has one slot per scanner,
Execute yields rows of width one for join-free queries, width one when a
GroupBy table is set, and width joins+1 otherwise. -/
theorem claim_C4_row_width (q : ScanQuery) (raws : List (List RawScan))
    (rows : List (List PersistableS))
    (h : executeModel q raws = .ok rows)
    (hw : ∀ raw ∈ raws, raw.length = (makeScannersM q).1.length) :
    (q.joins = [] → ∀ row ∈ rows, row.length = 1) ∧
    (scanGroupedBy q = none → ∀ row ∈ rows, row.length = q.joins.length + 1) ∧
    (∀ t, scanGroupedBy q = some t → ∀ row ∈ rows, row.length = 1) := by
  have hlen : ∀ row ∈ rows, row.length = (makeScannersM q).1.length := by
    intro row hrow
    obtain ⟨raw, hrawmem, hbuild⟩ := exceptMapM_ok_mem _ _ _ h row hrow
    have h2 := scannersBuild_ok_length _ _ _ hbuild
    rw [h2, List.length_zip, hw raw hrawmem, min_self]
  refine ⟨?_, ?_, ?_⟩
  · intro hj row hrow
    rw [hlen row hrow]
    unfold makeScannersM
    rcases hg : scanGroupedBy q with _ | t <;> simp [hj]
  · intro hg row hrow
    rw [hlen row hrow]
    unfold makeScannersM
    rw [hg]
    simp
  · intro t hg row hrow
    rw [hlen row hrow]
    unfold makeScannersM
    rw [hg]
    rfl

theorem claim_C4_row_width_witness :
    ∃ rows, executeModel
        { root := { kind := .root "test.fruit" ["Name"], groupBy := false },
          joins := [{ table := { kind := .root "test.basket" [], groupBy := false },
                      reference := false, fieldName := "F" }] }
        [[{ kind := some (.root "test.fruit" ["Name"]), parentKey := .nil, id := 1, bag := [] },
          { kind := none, parentKey := .nil, id := 0, bag := [] }]] = .ok rows ∧
      ∀ row ∈ rows, row.length = 2 := by
  have hok : (executeModel
      { root := { kind := .root "test.fruit" ["Name"], groupBy := false },
        joins := [{ table := { kind := .root "test.basket" [], groupBy := false },
                    reference := false, fieldName := "F" }] }
      [[{ kind := some (.root "test.fruit" ["Name"]), parentKey := .nil, id := 1, bag := [] },
        { kind := none, parentKey := .nil, id := 0, bag := [] }]]).toOption.isSome = true := by
    decide
  rcases hq : executeModel
      { root := { kind := .root "test.fruit" ["Name"], groupBy := false },
        joins := [{ table := { kind := .root "test.basket" [], groupBy := false },
                    reference := false, fieldName := "F" }] }
      [[{ kind := some (.root "test.fruit" ["Name"]), parentKey := .nil, id := 1, bag := [] },
        { kind := none, parentKey := .nil, id := 0, bag := [] }]] with m | rows
  · rw [hq] at hok
    simp [Except.toOption] at hok
  · exact ⟨rows, rfl,
      (claim_C4_row_width _ _ rows hq (by decide)).2.1 (by decide)⟩

/-- C9: EntityScanner.Build yields the ZeroKey placeholder on a null
scanned kind, an error naming the two kinds when the scanned kind does not
derive from the declared kind, and otherwise a populated entity of the
scanned kind with the scanned parent key and id. -/
theorem claim_C9_scanner_build (declared : KindT) (pk : GoKey) (id : Int)
    (bag : List (String × FieldVal)) :
    entityScannerBuild declared none pk id bag = .ok .zeroKey ∧
    (∀ k, derivesFrom k declared = false →
      entityScannerBuild declared (some k) pk id bag =
        .error ("kind \x27" ++ k.kindName ++ "\x27 does not derive from \x27" ++
          declared.kindName ++ "\x27")) ∧
    (∀ k, derivesFrom k declared = true →
      entityScannerBuild declared (some k) pk id bag =
        .ok (.ent { kind := k, parentKey := pk, id := id, fields := bag,
                    populated := true })) := by
  refine ⟨rfl, ?_, ?_⟩ <;> intro k hk <;> simp [entityScannerBuild, hk]

theorem claim_C9_scanner_build_witness :
    entityScannerBuild (.root "test.base" ["Name"]) none .nil 0 [] = .ok .zeroKey ∧
    entityScannerBuild (.root "test.base" ["Name"]) (some (.root "test.other" [])) .nil 0 [] =
      .error "kind \x27test.other\x27 does not derive from \x27test.base\x27" ∧
    entityScannerBuild (.root "test.base" ["Name"])
        (some (.derived "test.sub" [] (.root "test.base" ["Name"]))) .nil 7
        [("Name", .prim (.s "Fuji"))] =
      .ok (.ent { kind := .derived "test.sub" [] (.root "test.base" ["Name"]),
                  parentKey := .nil, id := 7,
                  fields := [("Name", .prim (.s "Fuji"))], populated := true }) :=
  ⟨(claim_C9_scanner_build (.root "test.base" ["Name"]) .nil 0 []).1,
   (claim_C9_scanner_build (.root "test.base" ["Name"]) .nil 0 []).2.1
     (.root "test.other" []) (by decide),
   (claim_C9_scanner_build (.root "test.base" ["Name"]) .nil 7
       [("Name", .prim (.s "Fuji"))]).2.2
     (.derived "test.sub" [] (.root "test.base" ["Name"])) (by decide)⟩

/-- C6: ExecuteSingle returns no entity and no error on zero rows, the
more-than-one-result error on two or more rows, and on exactly one row
(with no target entity, as the manager passes) the first entity of that
row. -/
theorem claim_C6_execute_single {α : Type} (ski : α → α → α) (st : α → α → Bool)
    (cp : α → α → Except String α) (results : List (List α)) (e : Option α) :
    (results = [] → executeSingle ski st cp results e = .ok none) ∧
    (2 ≤ results.length →
      executeSingle ski st cp results e =
        .error "call to ExecuteSingle returned more than one result") ∧
    (∀ x row, results = [x :: row] →
      executeSingle ski st cp results none = .ok (some x)) := by
  refine ⟨?_, ?_, ?_⟩
  · intro h
    subst h
    rfl
  · intro h
    match results with
    | [] => exact absurd h (by simp)
    | [r] => exact absurd h (by simp)
    | a :: b :: rest => rfl
  · intro x row h
    subst h
    rfl

theorem claim_C6_execute_single_witness :
    executeSingle (fun t _ => t) (fun _ _ => true) (fun x _ => .ok x)
        ([] : List (List PersistableS)) none = .ok none ∧
    executeSingle (fun t _ => t) (fun _ _ => true) (fun x _ => .ok x)
        [[PersistableS.zeroKey], [PersistableS.zeroKey]] none =
      .error "call to ExecuteSingle returned more than one result" ∧
    executeSingle (fun t _ => t) (fun _ _ => true) (fun x _ => .ok x)
        [[PersistableS.zeroKey]] none = .ok (some .zeroKey) :=
  ⟨(claim_C6_execute_single (fun t _ => t) (fun _ _ => true) (fun x _ => .ok x)
      [] none).1 rfl,
   (claim_C6_execute_single (fun t _ => t) (fun _ _ => true) (fun x _ => .ok x)
      [[PersistableS.zeroKey], [PersistableS.zeroKey]] none).2.1 (by decide),
   (claim_C6_execute_single (fun t _ => t) (fun _ _ => true) (fun x _ => .ok x)
      [[PersistableS.zeroKey]] none).2.2 .zeroKey [] rfl⟩

/-- C7: the update guard is dead code.  Put on an entity with id 5 that is
not populated reports no error and hands the UPDATE statement with the
entity's column values and id to the connection, because update assigns
the not-loaded error without returning and the next assignment overwrites
it. -/
theorem claim_C7_put_unpopulated_runs_update :
    putM { qualifiedTableName := "\"grumble\".\"product\"" } ""
        { id := 5, populated := false, colVals := [.s "Squash"] } none .noRows =
      (none,
       [{ stmt := .updateStmt, table := "\"grumble\".\"product\"",
          values := [.s "Squash", .i 5] }],
       { id := 5, populated := false, colVals := [.s "Squash"] }) := by
  decide

/-! ## Kind registration lemmas (C5, C8) -/

theorem addColumnR_ok_of_not_mem (k : KindR) (c : ColumnR)
    (h : c.fieldName ∉ fieldNamesR k) :
    addColumnR k c = .ok { k with columns := k.columns ++ [c] } := by
  unfold addColumnR
  rw [if_neg]
  intro hc
  rcases List.any_eq_true.mp hc with ⟨c2, hc2, heq⟩
  exact h (List.mem_map.mpr ⟨c2, hc2, (beq_iff_eq.mp heq).symm ▸ rfl⟩)

theorem addColumnR_err_of_mem (k : KindR) (c : ColumnR)
    (h : c.fieldName ∈ fieldNamesR k) :
    addColumnR k c = .error ("Kind \x27" ++ k.name ++
      "\x27 cannot have two columns with the same name \x27" ++ c.columnName ++ "\x27") := by
  unfold addColumnR
  rw [if_pos]
  rcases List.mem_map.mp h with ⟨c2, hc2, heq⟩
  exact List.any_eq_true.mpr ⟨c2, hc2, beq_iff_eq.mpr heq⟩

theorem addColumnR_ok_shape (k : KindR) (c : ColumnR) (k2 : KindR)
    (h : addColumnR k c = .ok k2) : k2 = { k with columns := k.columns ++ [c] } := by
  unfold addColumnR at h
  split at h
  · cases h
  · cases h
    rfl

theorem addColumnsR_ok_shape (cs : List ColumnR) : ∀ k k2,
    addColumnsR k cs = .ok k2 → k2 = { k with columns := k.columns ++ cs } := by
  induction cs with
  | nil =>
    intro k k2 h
    cases h
    simp
  | cons c rest ih =>
    intro k k2 h
    unfold addColumnsR at h
    rcases ha : addColumnR k c with m | k3 <;> rw [ha] at h
    · cases h
    · rw [ih k3 k2 h, addColumnR_ok_shape k c k3 ha]
      simp

theorem addColumnsR_ok_of_nodup (cs : List ColumnR) : ∀ k,
    (cs.map (fun c => c.fieldName)).Nodup →
    (∀ n ∈ cs.map (fun c => c.fieldName), n ∉ fieldNamesR k) →
    addColumnsR k cs = .ok { k with columns := k.columns ++ cs } := by
  induction cs with
  | nil =>
    intro k _ _
    simp only [addColumnsR]
    congr 1
    simp
  | cons c rest ih =>
    intro k hnd hdisj
    unfold addColumnsR
    rw [addColumnR_ok_of_not_mem k c (hdisj c.fieldName (by simp))]
    have hrest := ih { k with columns := k.columns ++ [c] }
      (by simpa using hnd.of_cons)
      (by
        intro n hn
        rw [show fieldNamesR { k with columns := k.columns ++ [c] } =
          fieldNamesR k ++ [c.fieldName] from by simp [fieldNamesR]]
        simp only [List.mem_append, List.mem_singleton]
        rintro (hnk | hne)
        · exact hdisj n (by simp [hn]) hnk
        · exact (List.nodup_cons.mp (by simpa using hnd)).1 (hne ▸ hn))
    refine hrest.trans ?_
    congr 1
    simp

theorem addColumnsR_err_of_dup (cs : List ColumnR) : ∀ k,
    (fieldNamesR k).Nodup →
    ¬ (fieldNamesR k ++ cs.map (fun c => c.fieldName)).Nodup →
    ∃ c, addColumnsR k cs = .error ("Kind \x27" ++ k.name ++
      "\x27 cannot have two columns with the same name \x27" ++ c ++ "\x27") := by
  induction cs with
  | nil =>
    intro k hknd hdup
    exact absurd (by simpa using hknd) hdup
  | cons c rest ih =>
    intro k hknd hdup
    by_cases hc : c.fieldName ∈ fieldNamesR k
    · refine ⟨c.columnName, ?_⟩
      unfold addColumnsR
      rw [addColumnR_err_of_mem k c hc]
    · unfold addColumnsR
      rw [addColumnR_ok_of_not_mem k c hc]
      have hk2names : fieldNamesR { k with columns := k.columns ++ [c] } =
          fieldNamesR k ++ [c.fieldName] := by
        simp [fieldNamesR]
      obtain ⟨c2, hc2⟩ := ih { k with columns := k.columns ++ [c] }
        (by
          rw [hk2names]
          exact List.Nodup.append hknd (List.nodup_singleton _)
            (by simpa [List.disjoint_right] using hc))
        (by
          rw [hk2names]
          intro hnd
          exact hdup (by simpa [List.append_assoc] using hnd))
      exact ⟨c2, hc2⟩

theorem transLookup_ne_nil (l : List (String × List Nat)) (n : String) (ix : List Nat)
    (h : transLookup l n = some ix) : l.filter (fun t => t.1 == n) ≠ [] := by
  intro hnil
  unfold transLookup at h
  rw [hnil] at h
  cases h

theorem transLookup_append_right (l1 l2 : List (String × List Nat)) (n : String)
    (h : l2.filter (fun t => t.1 == n) ≠ []) :
    transLookup (l1 ++ l2) n = transLookup l2 n := by
  unfold transLookup
  rw [List.filter_append, List.map_append,
    List.getLast?_append_of_ne_nil _ (by simpa using h)]

theorem transLookup_append_left (l1 l2 : List (String × List Nat)) (n : String)
    (h : l2.filter (fun t => t.1 == n) = []) :
    transLookup (l1 ++ l2) n = transLookup l1 n := by
  unfold transLookup
  rw [List.filter_append, h, List.append_nil]

theorem transLookup_prefix_map (l : List (String × List Nat)) (p : Nat) (n : String) :
    transLookup (l.map (fun t => (t.1, p :: t.2))) n =
      (transLookup l n).map (fun ix => p :: ix) := by
  unfold transLookup
  rw [List.filter_map, ← List.getLast?_map, List.map_map, List.map_map]
  rfl

theorem plainCount_cons_of_not (f : FieldSpec) (fs : List FieldSpec)
    (h : f.isPlain = false) : plainCount (f :: fs) = plainCount fs := by
  simp [plainCount, List.filter_cons, h]

theorem plainCount_cons_of_plain (f : FieldSpec) (fs : List FieldSpec)
    (h : f.isPlain = true) : plainCount (f :: fs) = plainCount fs + 1 := by
  simp [plainCount, List.filter_cons, h, Nat.add_comm]

theorem setBaseKindR_ok_shape (k : KindR) (i : Nat) (b : KindR) (k2 : KindR)
    (h : setBaseKindR k i b = .ok k2) :
    k2 = { k with
      columns := k.columns ++ b.columns.map (fun c => { c with index := i :: c.index }),
      transient := k.transient ++ b.transient.map (fun t => (t.1, i :: t.2)),
      baseIndex := some i, baseName := some b.name } := by
  unfold setBaseKindR at h
  rcases ha : addColumnsR { k with baseIndex := some i, baseName := some b.name }
      (b.columns.map (fun c => { c with index := i :: c.index })) with m | k3 <;>
    rw [ha] at h
  · cases h
  · cases h
    rw [addColumnsR_ok_shape _ _ _ ha]

theorem setBaseKindR_err_of_dup (k : KindR) (i : Nat) (b : KindR)
    (hknd : (fieldNamesR k).Nodup)
    (hdup : ¬ (fieldNamesR k ++ b.columns.map (fun c => c.fieldName)).Nodup) :
    ∃ c, setBaseKindR k i b = .error ("Kind \x27" ++ k.name ++
      "\x27 cannot have two columns with the same name \x27" ++ c ++ "\x27") := by
  obtain ⟨c, hc⟩ := addColumnsR_err_of_dup
    (b.columns.map (fun c => { c with index := i :: c.index }))
    { k with baseIndex := some i, baseName := some b.name }
    (by simpa [fieldNamesR] using hknd)
    (by
      rw [show fieldNamesR { k with baseIndex := some i, baseName := some b.name } =
        fieldNamesR k from rfl]
      rw [List.map_map]
      exact fun hnd => hdup (by simpa using hnd))
  refine ⟨c, ?_⟩
  unfold setBaseKindR
  rw [hc]

theorem createKindAux_post_base (kname : String) : ∀ (fs : List FieldSpec) i kf
    (k K : KindR),
    k.baseIndex.isSome = true →
    createKindAux kname i kf k fs = .ok K →
    ∃ suf tsuf, K.columns = k.columns ++ suf ∧ K.transient = k.transient ++ tsuf ∧
      ∀ t ∈ tsuf, ∃ n, FieldSpec.transientF n ∈ fs ∧ t.1 = n := by
  intro fs
  induction fs with
  | nil =>
    intro i kf k K hb h
    cases h
    exact ⟨[], [], by simp, by simp, by simp⟩
  | cons f rest ih =>
    intro i kf k K hb h
    cases f with
    | skipped =>
      have h2 : createKindAux kname (i + 1) kf k rest = Except.ok K := h
      obtain ⟨suf, tsuf, h1, h2, h3⟩ := ih (i + 1) kf k K hb h2
      exact ⟨suf, tsuf, h1, h2, fun t ht =>
        (h3 t ht).imp (fun n hn => ⟨List.mem_cons_of_mem _ hn.1, hn.2⟩)⟩
    | transientF n =>
      have hstep : createKindAux kname (i + 1) kf
          { k with transient := k.transient ++ [(n, [i])] } rest = Except.ok K := h
      obtain ⟨suf, tsuf, h1, h2, h3⟩ :=
        ih (i + 1) kf { k with transient := k.transient ++ [(n, [i])] } K hb hstep
      refine ⟨suf, (n, [i]) :: tsuf, h1, ?_, ?_⟩
      · rw [h2]
        simp
      · intro t ht
        rcases List.mem_cons.mp ht with ht2 | ht2
        · exact ⟨n, by simp, by rw [ht2]⟩
        · exact (h3 t ht2).imp (fun n2 hn => ⟨List.mem_cons_of_mem _ hn.1, hn.2⟩)
    | keyMarker =>
      have hstep : (if k.baseIndex.isSome = true then
          (Except.error ("Kind \x27" ++ kname ++
            "\x27 cannot embed Key directly and have a BaseKind Kind") : Except String KindR)
        else createKindAux kname (i + 1) true k rest) = Except.ok K := h
      rw [if_pos hb] at hstep
      cases hstep
    | baseEmbed b =>
      have hstep : (if k.baseIndex.isSome = true then
          (Except.error ("Kind \x27" ++ kname ++
            "\x27: Multiple inheritance not supported.") : Except String KindR)
        else if kf = true then
          Except.error ("Kind \x27" ++ kname ++
            "\x27 cannot embed Key directly and have a BaseKind Kind")
        else match setBaseKindR k i b with
          | .error m => .error m
          | .ok k2 => createKindAux kname (i + 1) kf k2 rest) = Except.ok K := h
      rw [if_pos hb] at hstep
      cases hstep
    | plain fn tag =>
      have hstep : (match addColumnR k
          { fieldName := fn, columnName := tag.getD fn, index := [i] } with
        | .error m => (Except.error m : Except String KindR)
        | .ok k2 => createKindAux kname (i + 1) kf k2 rest) = Except.ok K := h
      rcases ha : addColumnR k { fieldName := fn, columnName := tag.getD fn, index := [i] }
          with m | k2 <;> rw [ha] at hstep
      · cases hstep
      · rw [addColumnR_ok_shape _ _ _ ha] at hstep
        obtain ⟨suf, tsuf, h1, h2, h3⟩ := ih (i + 1) kf
          { k with columns := k.columns ++
            [{ fieldName := fn, columnName := tag.getD fn, index := [i] }] } K hb hstep
        refine ⟨{ fieldName := fn, columnName := tag.getD fn, index := [i] } :: suf,
          tsuf, ?_, h2, fun t ht =>
            (h3 t ht).imp (fun n2 hn => ⟨List.mem_cons_of_mem _ hn.1, hn.2⟩)⟩
        rw [h1]
        simp

theorem createKindAux_pre_base (kname : String) (b : KindR) (post : List FieldSpec) :
    ∀ (pre : List FieldSpec) i kf (k K : KindR),
    (∀ f ∈ pre, f.isBase = false) →
    createKindAux kname i kf k (pre ++ FieldSpec.baseEmbed b :: post) = .ok K →
    ((K.columns.drop (k.columns.length + plainCount pre)).take b.columns.length =
      b.columns.map (fun c => { c with index := (i + pre.length) :: c.index })) ∧
    (∀ n ix, transLookup b.transient n = some ix →
      (∀ f ∈ post, f ≠ FieldSpec.transientF n) →
      transLookup K.transient n = some ((i + pre.length) :: ix)) := by
  intro pre
  induction pre with
  | nil =>
    intro i kf k K _ h
    rw [List.nil_append] at h
    have hstep : (if k.baseIndex.isSome = true then
        (Except.error ("Kind \x27" ++ kname ++
          "\x27: Multiple inheritance not supported.") : Except String KindR)
      else if kf = true then
        Except.error ("Kind \x27" ++ kname ++
          "\x27 cannot embed Key directly and have a BaseKind Kind")
      else match setBaseKindR k i b with
        | .error m => .error m
        | .ok k2 => createKindAux kname (i + 1) kf k2 post) = Except.ok K := h
    clear h
    rcases hbi : k.baseIndex.isSome with _ | _ <;> rw [hbi] at hstep
    · rw [if_neg (by simp)] at hstep
      cases kf with
      | true =>
        rw [if_pos rfl] at hstep
        cases hstep
      | false =>
        rw [if_neg (by simp)] at hstep
        rcases hsb : setBaseKindR k i b with m | k2 <;> rw [hsb] at hstep
        · cases hstep
        · have hstep2 : createKindAux kname (i + 1) false k2 post = Except.ok K := hstep
          have hk2 := setBaseKindR_ok_shape _ _ _ _ hsb
          subst hk2
          obtain ⟨suf, tsuf, hc, ht, hkeys⟩ :=
            createKindAux_post_base kname post (i + 1) false _ K (by rfl) hstep2
          have hc2 : K.columns = (k.columns ++
              b.columns.map (fun c => { c with index := i :: c.index })) ++ suf := hc
          have ht2 : K.transient = (k.transient ++
              b.transient.map (fun t => (t.1, i :: t.2))) ++ tsuf := ht
          constructor
          · simp only [plainCount, List.filter_nil, List.length_nil, Nat.add_zero]
            rw [hc2, List.append_assoc, List.drop_left]
            exact List.take_left' (by simp)
          · intro n ix hbn hpost
            have hsuffilter : tsuf.filter (fun t => t.1 == n) = [] := by
              rw [List.filter_eq_nil_iff]
              intro t htt hpt
              obtain ⟨n2, hn2, ht1⟩ := hkeys t htt
              rw [ht1] at hpt
              exact hpost _ hn2 (by rw [beq_iff_eq.mp hpt])
            have hbfilter : b.transient.filter (fun t => t.1 == n) ≠ [] :=
              transLookup_ne_nil _ _ _ hbn
            have hmapfilter : ((b.transient.map
                (fun t => (t.1, i :: t.2))).filter (fun t => t.1 == n)) ≠ [] := by
              intro hnil
              rw [List.filter_map] at hnil
              exact hbfilter (List.map_eq_nil_iff.mp hnil)
            simp only [List.length_nil, Nat.add_zero]
            rw [ht2, transLookup_append_left _ _ _ hsuffilter,
              transLookup_append_right _ _ _ hmapfilter, transLookup_prefix_map, hbn]
            rfl
    · rw [if_pos rfl] at hstep
      cases hstep
  | cons f pre2 ih =>
    intro i kf k K hpre h
    have hf : f.isBase = false := hpre f (List.mem_cons_self _ _)
    have hpre2 : ∀ f2 ∈ pre2, f2.isBase = false :=
      fun f2 hf2 => hpre f2 (List.mem_cons_of_mem _ hf2)
    rw [List.cons_append] at h
    have harith : (i + 1) + pre2.length = i + (f :: pre2).length := by
      simp only [List.length_cons]
      omega
    cases f with
    | baseEmbed b2 => simp [FieldSpec.isBase] at hf
    | skipped =>
      have hstep : createKindAux kname (i + 1) kf k
          (pre2 ++ FieldSpec.baseEmbed b :: post) = Except.ok K := h
      obtain ⟨h1, h2⟩ := ih (i + 1) kf k K hpre2 hstep
      rw [harith] at h1 h2
      rw [plainCount_cons_of_not _ _ (by rfl)]
      exact ⟨h1, h2⟩
    | transientF n =>
      have hstep : createKindAux kname (i + 1) kf
          { k with transient := k.transient ++ [(n, [i])] }
          (pre2 ++ FieldSpec.baseEmbed b :: post) = Except.ok K := h
      obtain ⟨h1, h2⟩ := ih (i + 1) kf
        { k with transient := k.transient ++ [(n, [i])] } K hpre2 hstep
      rw [harith] at h1 h2
      rw [plainCount_cons_of_not _ _ (by rfl)]
      exact ⟨h1, h2⟩
    | keyMarker =>
      have hstep : (if k.baseIndex.isSome = true then
          (Except.error ("Kind \x27" ++ kname ++
            "\x27 cannot embed Key directly and have a BaseKind Kind") : Except String KindR)
        else createKindAux kname (i + 1) true k
          (pre2 ++ FieldSpec.baseEmbed b :: post)) = Except.ok K := h
      clear h
      rcases hbi : k.baseIndex.isSome with _ | _ <;> rw [hbi] at hstep
      · rw [if_neg (by simp)] at hstep
        obtain ⟨h1, h2⟩ := ih (i + 1) true k K hpre2 hstep
        rw [harith] at h1 h2
        rw [plainCount_cons_of_not _ _ (by rfl)]
        exact ⟨h1, h2⟩
      · rw [if_pos rfl] at hstep
        cases hstep
    | plain fn tag =>
      have hstep : (match addColumnR k
          { fieldName := fn, columnName := tag.getD fn, index := [i] } with
        | .error m => (Except.error m : Except String KindR)
        | .ok k2 => createKindAux kname (i + 1) kf k2
            (pre2 ++ FieldSpec.baseEmbed b :: post)) = Except.ok K := h
      rcases ha : addColumnR k { fieldName := fn, columnName := tag.getD fn, index := [i] }
          with m | k2 <;> rw [ha] at hstep
      · cases hstep
      · rw [addColumnR_ok_shape _ _ _ ha] at hstep
        obtain ⟨h1, h2⟩ := ih (i + 1) kf
          { k with columns := k.columns ++
            [{ fieldName := fn, columnName := tag.getD fn, index := [i] }] } K hpre2 hstep
        rw [harith] at h1 h2
        rw [plainCount_cons_of_plain _ _ (by rfl)]
        refine ⟨?_, h2⟩
        rw [show k.columns.length + (plainCount pre2 + 1) =
          ({ k with columns := k.columns ++
            [{ fieldName := fn, columnName := tag.getD fn, index := [i] }] } :
              KindR).columns.length + plainCount pre2 from by simp; omega]
        exact h1

/-- C5 (amended): when a kind embeds a base, the base's columns appear in
the registered kind as one contiguous block, in base order, each index
path prefixed by the embedding field index; the block starts right after
the columns of the plain fields declared before the embedding (so it is at
the very front exactly when no plain column field precedes the base), and
every base transient entry is visible under the kind with the same prefix
unless a later transient field of the same name shadows it. -/
theorem claim_C5_base_columns (kname : String) (pre post : List FieldSpec)
    (b K : KindR)
    (hpre : ∀ f ∈ pre, f.isBase = false)
    (hok : createKindR kname (pre ++ FieldSpec.baseEmbed b :: post) = .ok K) :
    ((K.columns.drop (plainCount pre)).take b.columns.length =
      b.columns.map (fun c => { c with index := pre.length :: c.index })) ∧
    (plainCount pre = 0 →
      K.columns.take b.columns.length =
        b.columns.map (fun c => { c with index := pre.length :: c.index })) ∧
    (∀ n ix, transLookup b.transient n = some ix →
      (∀ f ∈ post, f ≠ FieldSpec.transientF n) →
      transLookup K.transient n = some (pre.length :: ix)) := by
  obtain ⟨h1, h2⟩ := createKindAux_pre_base kname b post pre 0 false
    { name := kname, columns := [], transient := [], baseIndex := none, baseName := none }
    K hpre hok
  simp only [List.length_nil, Nat.zero_add, Nat.add_zero] at h1 h2
  refine ⟨h1, ?_, h2⟩
  intro hpc
  rw [hpc] at h1
  simpa using h1

theorem claim_C5_counterexample :
    (createKindR "test.derived"
        [FieldSpec.plain "X" none,
         FieldSpec.baseEmbed
           { name := "test.base",
             columns := [{ fieldName := "BCol", columnName := "BCol", index := [0] }],
             transient := [], baseIndex := none, baseName := none }]).toOption.map
      (fun K => K.columns.take 1) =
      some [{ fieldName := "X", columnName := "X", index := [0] }] ∧
    ({ name := "test.base",
       columns := [{ fieldName := "BCol", columnName := "BCol", index := [0] }],
       transient := [], baseIndex := none,
       baseName := none } : KindR).columns.map
        (fun c => { c with index := 1 :: c.index }) =
      [{ fieldName := "BCol", columnName := "BCol", index := [1, 0] }] ∧
    [({ fieldName := "X", columnName := "X", index := [0] } : ColumnR)] ≠
      [{ fieldName := "BCol", columnName := "BCol", index := [1, 0] }] := by
  refine ⟨by decide, by decide, by decide⟩

theorem claim_C5_base_columns_witness :
    (∀ f ∈ [FieldSpec.transientF "Cache"], f.isBase = false) ∧
    ∃ K, createKindR "test.derived2"
        ([FieldSpec.transientF "Cache"] ++ FieldSpec.baseEmbed
          { name := "test.base2",
            columns := [{ fieldName := "BCol", columnName := "BCol", index := [0] }],
            transient := [("BTrans", [1])], baseIndex := none, baseName := none } ::
          [FieldSpec.plain "Y" none]) = .ok K ∧
      (K.columns.drop (plainCount [FieldSpec.transientF "Cache"])).take 1 =
        [{ fieldName := "BCol", columnName := "BCol", index := [1, 0] }] ∧
      transLookup K.transient "BTrans" = some [1, 1] := by
  refine ⟨by decide, ?_⟩
  rcases hq : createKindR "test.derived2"
      ([FieldSpec.transientF "Cache"] ++ FieldSpec.baseEmbed
        { name := "test.base2",
          columns := [{ fieldName := "BCol", columnName := "BCol", index := [0] }],
          transient := [("BTrans", [1])], baseIndex := none, baseName := none } ::
        [FieldSpec.plain "Y" none]) with m | K
  · have hok : (createKindR "test.derived2"
        ([FieldSpec.transientF "Cache"] ++ FieldSpec.baseEmbed
          { name := "test.base2",
            columns := [{ fieldName := "BCol", columnName := "BCol", index := [0] }],
            transient := [("BTrans", [1])], baseIndex := none, baseName := none } ::
          [FieldSpec.plain "Y" none])).toOption.isSome = true := by decide
    rw [hq] at hok
    simp [Except.toOption] at hok
  · obtain ⟨h1, _, h3⟩ := claim_C5_base_columns "test.derived2"
      [FieldSpec.transientF "Cache"] [FieldSpec.plain "Y" none]
      { name := "test.base2",
        columns := [{ fieldName := "BCol", columnName := "BCol", index := [0] }],
        transient := [("BTrans", [1])], baseIndex := none, baseName := none }
      K (by decide) hq
    refine ⟨K, rfl, ?_, ?_⟩
    · simpa using h1
    · simpa using h3 "BTrans" [1] (by decide) (by decide)

theorem setBaseKindR_ok_props (k : KindR) (i : Nat) (b : KindR)
    (hbnd : (b.columns.map (fun c => c.fieldName)).Nodup)
    (hdisj : ∀ n ∈ b.columns.map (fun c => c.fieldName), n ∉ fieldNamesR k) :
    ∃ T, setBaseKindR k i b = .ok T ∧
      fieldNamesR T = fieldNamesR k ++ b.columns.map (fun c => c.fieldName) ∧
      colNamesR T = colNamesR k ++ b.columns.map (fun c => c.columnName) ∧
      T.baseIndex = some i ∧ T.name = k.name := by
  have hmm : ((b.columns.map (fun c : ColumnR => { c with index := i :: c.index })).map
      (fun c => c.fieldName)) = b.columns.map (fun c => c.fieldName) := by
    rw [List.map_map]
    rfl
  have ha := addColumnsR_ok_of_nodup
    (b.columns.map (fun c : ColumnR => { c with index := i :: c.index }))
    { k with baseIndex := some i, baseName := some b.name }
    (by rw [hmm]; exact hbnd)
    (by
      rw [hmm]
      intro n hn
      exact hdisj n hn)
  refine
    ⟨{ name := k.name,
       columns := k.columns ++ b.columns.map (fun c => { c with index := i :: c.index }),
       transient := k.transient ++ b.transient.map (fun t => (t.1, i :: t.2)),
       baseIndex := some i,
       baseName := some b.name }, ?_, ?_, ?_, ?_, ?_⟩
  · unfold setBaseKindR
    rw [ha]
  · simp only [fieldNamesR, List.map_append]
    rw [List.map_map]
    rfl
  · simp only [colNamesR, List.map_append]
    rw [List.map_map]
    rfl
  · rfl
  · rfl

theorem createKindAux_ok_of_nodup (kname : String) : ∀ (fs : List FieldSpec) i kf
    (k : KindR),
    (fs.filter FieldSpec.isBase).length ≤ 1 →
    (k.baseIndex.isSome = true →
      fs.any FieldSpec.isKey = false ∧ fs.any FieldSpec.isBase = false) →
    ((kf = true ∨ fs.any FieldSpec.isKey = true) → fs.any FieldSpec.isBase = false) →
    (fieldNamesR k ++ expandedFieldNames fs).Nodup →
    ∃ K, createKindAux kname i kf k fs = .ok K ∧
      fieldNamesR K = fieldNamesR k ++ expandedFieldNames fs ∧
      colNamesR K = colNamesR k ++ expandedColumnNames fs := by
  intro fs
  induction fs with
  | nil =>
    intro i kf k _ _ _ _
    exact ⟨k, rfl, by simp [expandedFieldNames], by simp [expandedColumnNames]⟩
  | cons f rest ih =>
    intro i kf k hcount hbase hkey hnd
    cases f with
    | skipped =>
      obtain ⟨K, hK, h1, h2⟩ := ih (i + 1) kf k
        (by simpa [FieldSpec.isBase] using hcount)
        (fun hb => ⟨by simpa [FieldSpec.isKey] using (hbase hb).1,
          by simpa [FieldSpec.isBase] using (hbase hb).2⟩)
        (fun hor => by
          have := hkey (hor.imp id (fun h => by simpa [FieldSpec.isKey] using h))
          simpa [FieldSpec.isBase] using this)
        (by simpa [expandedFieldNames] using hnd)
      exact ⟨K, hK, by simpa [expandedFieldNames] using h1,
        by simpa [expandedColumnNames] using h2⟩
    | transientF n =>
      obtain ⟨K, hK, h1, h2⟩ := ih (i + 1) kf
        { k with transient := k.transient ++ [(n, [i])] }
        (by simpa [FieldSpec.isBase] using hcount)
        (fun hb => ⟨by simpa [FieldSpec.isKey] using (hbase hb).1,
          by simpa [FieldSpec.isBase] using (hbase hb).2⟩)
        (fun hor => by
          have := hkey (hor.imp id (fun h => by simpa [FieldSpec.isKey] using h))
          simpa [FieldSpec.isBase] using this)
        (by simpa [expandedFieldNames, fieldNamesR] using hnd)
      exact ⟨K, hK, by simpa [expandedFieldNames, fieldNamesR] using h1,
        by simpa [expandedColumnNames, colNamesR] using h2⟩
    | keyMarker =>
      rcases hbi : k.baseIndex.isSome with _ | _
      · obtain ⟨K, hK, h1, h2⟩ := ih (i + 1) true k
          (by simpa [FieldSpec.isBase] using hcount)
          (fun hb => by rw [hbi] at hb; cases hb)
          (fun _ => by
            have := hkey (Or.inr (by simp [FieldSpec.isKey]))
            simpa [FieldSpec.isBase] using this)
          (by simpa [expandedFieldNames] using hnd)
        refine ⟨K, ?_, by simpa [expandedFieldNames] using h1,
          by simpa [expandedColumnNames] using h2⟩
        have heq : createKindAux kname i kf k (FieldSpec.keyMarker :: rest) =
            (if k.baseIndex.isSome = true then
              (Except.error ("Kind \x27" ++ kname ++
                "\x27 cannot embed Key directly and have a BaseKind Kind") :
                  Except String KindR)
            else createKindAux kname (i + 1) true k rest) := rfl
        rw [heq, if_neg (by simp [hbi])]
        exact hK
      · exact absurd (hbase hbi).1 (by simp [FieldSpec.isKey])
    | plain fn tag =>
      have hnd2 : (fieldNamesR k ++ fn :: expandedFieldNames rest).Nodup := by
        simpa [expandedFieldNames] using hnd
      have hfn : fn ∉ fieldNamesR k := by
        rw [List.nodup_append] at hnd2
        intro hmem
        exact hnd2.2.2 hmem (List.mem_cons_self _ _)
      have hk2names : fieldNamesR { k with columns := k.columns ++
          [{ fieldName := fn, columnName := tag.getD fn, index := [i] }] } =
          fieldNamesR k ++ [fn] := by
        simp [fieldNamesR]
      have hk2cols : colNamesR { k with columns := k.columns ++
          [{ fieldName := fn, columnName := tag.getD fn, index := [i] }] } =
          colNamesR k ++ [tag.getD fn] := by
        simp [colNamesR]
      obtain ⟨K, hK, h1, h2⟩ := ih (i + 1) kf
        { k with columns := k.columns ++
          [{ fieldName := fn, columnName := tag.getD fn, index := [i] }] }
        (by simpa [FieldSpec.isBase] using hcount)
        (fun hb => ⟨by simpa [FieldSpec.isKey] using (hbase hb).1,
          by simpa [FieldSpec.isBase] using (hbase hb).2⟩)
        (fun hor => by
          have := hkey (hor.imp id (fun h => by simpa [FieldSpec.isKey] using h))
          simpa [FieldSpec.isBase] using this)
        (by
          rw [hk2names]
          simpa [List.append_assoc] using hnd2)
      refine ⟨K, ?_, ?_, ?_⟩
      · have heq : createKindAux kname i kf k (FieldSpec.plain fn tag :: rest) =
            (match addColumnR k
              { fieldName := fn, columnName := tag.getD fn, index := [i] } with
            | .error m => (Except.error m : Except String KindR)
            | .ok k2 => createKindAux kname (i + 1) kf k2 rest) := rfl
        rw [heq, addColumnR_ok_of_not_mem k _ hfn]
        exact hK
      · rw [h1, hk2names]
        simp [expandedFieldNames]
      · rw [h2, hk2cols]
        simp [expandedColumnNames]
    | baseEmbed b =>
      rcases hbi : k.baseIndex.isSome with _ | _
      · have hkf : kf = false := by
          cases kf
          · rfl
          · exact absurd (hkey (Or.inl rfl)) (by simp [FieldSpec.isBase])
        subst hkf
        have hfilnil : rest.filter FieldSpec.isBase = [] := by
          rw [List.filter_cons_of_pos (by rfl)] at hcount
          simp only [List.length_cons] at hcount
          rw [← List.length_eq_zero]
          omega
        have hrestBase : rest.any FieldSpec.isBase = false := by
          by_contra hany
          have hany2 : rest.any FieldSpec.isBase = true := by
            revert hany
            cases rest.any FieldSpec.isBase <;> simp
          obtain ⟨x, hx, hpx⟩ := List.any_eq_true.mp hany2
          have hxf : x ∈ rest.filter FieldSpec.isBase :=
            List.mem_filter.mpr ⟨hx, hpx⟩
          rw [hfilnil] at hxf
          cases hxf
        have hrestKey : rest.any FieldSpec.isKey = false := by
          by_contra hany
          have hany2 : rest.any FieldSpec.isKey = true := by
            revert hany
            cases rest.any FieldSpec.isKey <;> simp
          have := hkey (Or.inr (by simp [FieldSpec.isKey, hany2]))
          simp [FieldSpec.isBase] at this
        have hndfull : (fieldNamesR k ++ (b.columns.map (fun c => c.fieldName) ++
            expandedFieldNames rest)).Nodup := by
          simpa [expandedFieldNames] using hnd
        obtain ⟨T, hsb, hTnames, hTcols, hTbi, _⟩ := setBaseKindR_ok_props k i b
          ((List.nodup_append.mp hndfull).2.1.of_append_left)
          (fun n hn hmem => (List.nodup_append.mp hndfull).2.2 hmem (by simp [hn]))
        obtain ⟨K, hK, h1, h2⟩ := ih (i + 1) false T
          (by rw [hfilnil]; simp)
          (fun _ => ⟨hrestKey, hrestBase⟩)
          (fun _ => hrestBase)
          (by
            rw [hTnames]
            simpa [List.append_assoc] using hndfull)
        refine ⟨K, ?_, ?_, ?_⟩
        · have heq : createKindAux kname i false k (FieldSpec.baseEmbed b :: rest) =
              (if k.baseIndex.isSome = true then
                (Except.error ("Kind \x27" ++ kname ++
                  "\x27: Multiple inheritance not supported.") : Except String KindR)
              else if (false : Bool) = true then
                Except.error ("Kind \x27" ++ kname ++
                  "\x27 cannot embed Key directly and have a BaseKind Kind")
              else match setBaseKindR k i b with
                | .error m => .error m
                | .ok k2 => createKindAux kname (i + 1) false k2 rest) := rfl
          rw [heq, if_neg (by simp [hbi]), if_neg (by simp), hsb]
          exact hK
        · rw [h1, hTnames]
          simp [expandedFieldNames]
        · rw [h2, hTcols]
          simp [expandedColumnNames]
      · exact absurd (hbase hbi).2 (by simp [FieldSpec.isBase])

theorem createKindAux_err_of_dup (kname : String) : ∀ (fs : List FieldSpec) i kf
    (k : KindR),
    (fs.filter FieldSpec.isBase).length ≤ 1 →
    (k.baseIndex.isSome = true →
      fs.any FieldSpec.isKey = false ∧ fs.any FieldSpec.isBase = false) →
    ((kf = true ∨ fs.any FieldSpec.isKey = true) → fs.any FieldSpec.isBase = false) →
    k.name = kname →
    (fieldNamesR k).Nodup →
    ¬ (fieldNamesR k ++ expandedFieldNames fs).Nodup →
    ∃ c, createKindAux kname i kf k fs = .error ("Kind \x27" ++ kname ++
      "\x27 cannot have two columns with the same name \x27" ++ c ++ "\x27") := by
  intro fs
  induction fs with
  | nil =>
    intro i kf k _ _ _ _ hknd hdup
    exact absurd (by simpa [expandedFieldNames] using hknd) hdup
  | cons f rest ih =>
    intro i kf k hcount hbase hkey hname hknd hdup
    cases f with
    | skipped =>
      obtain ⟨c, hc⟩ := ih (i + 1) kf k
        (by simpa [FieldSpec.isBase] using hcount)
        (fun hb => ⟨by simpa [FieldSpec.isKey] using (hbase hb).1,
          by simpa [FieldSpec.isBase] using (hbase hb).2⟩)
        (fun hor => by
          have := hkey (hor.imp id (fun h => by simpa [FieldSpec.isKey] using h))
          simpa [FieldSpec.isBase] using this)
        hname hknd
        (by simpa [expandedFieldNames] using hdup)
      exact ⟨c, hc⟩
    | transientF n =>
      obtain ⟨c, hc⟩ := ih (i + 1) kf
        { k with transient := k.transient ++ [(n, [i])] }
        (by simpa [FieldSpec.isBase] using hcount)
        (fun hb => ⟨by simpa [FieldSpec.isKey] using (hbase hb).1,
          by simpa [FieldSpec.isBase] using (hbase hb).2⟩)
        (fun hor => by
          have := hkey (hor.imp id (fun h => by simpa [FieldSpec.isKey] using h))
          simpa [FieldSpec.isBase] using this)
        hname hknd
        (by simpa [expandedFieldNames, fieldNamesR] using hdup)
      exact ⟨c, hc⟩
    | keyMarker =>
      rcases hbi : k.baseIndex.isSome with _ | _
      · obtain ⟨c, hc⟩ := ih (i + 1) true k
          (by simpa [FieldSpec.isBase] using hcount)
          (fun hb => by rw [hbi] at hb; cases hb)
          (fun _ => by
            have := hkey (Or.inr (by simp [FieldSpec.isKey]))
            simpa [FieldSpec.isBase] using this)
          hname hknd
          (by simpa [expandedFieldNames] using hdup)
        refine ⟨c, ?_⟩
        have heq : createKindAux kname i kf k (FieldSpec.keyMarker :: rest) =
            (if k.baseIndex.isSome = true then
              (Except.error ("Kind \x27" ++ kname ++
                "\x27 cannot embed Key directly and have a BaseKind Kind") :
                  Except String KindR)
            else createKindAux kname (i + 1) true k rest) := rfl
        rw [heq, if_neg (by simp [hbi])]
        exact hc
      · exact absurd (hbase hbi).1 (by simp [FieldSpec.isKey])
    | plain fn tag =>
      have heq : createKindAux kname i kf k (FieldSpec.plain fn tag :: rest) =
          (match addColumnR k
            { fieldName := fn, columnName := tag.getD fn, index := [i] } with
          | .error m => (Except.error m : Except String KindR)
          | .ok k2 => createKindAux kname (i + 1) kf k2 rest) := rfl
      by_cases hfn : fn ∈ fieldNamesR k
      · refine ⟨tag.getD fn, ?_⟩
        rw [heq, addColumnR_err_of_mem k _ hfn, hname]
      · have hk2names : fieldNamesR { k with columns := k.columns ++
            [{ fieldName := fn, columnName := tag.getD fn, index := [i] }] } =
            fieldNamesR k ++ [fn] := by
          simp [fieldNamesR]
        obtain ⟨c, hc⟩ := ih (i + 1) kf
          { k with columns := k.columns ++
            [{ fieldName := fn, columnName := tag.getD fn, index := [i] }] }
          (by simpa [FieldSpec.isBase] using hcount)
          (fun hb => ⟨by simpa [FieldSpec.isKey] using (hbase hb).1,
            by simpa [FieldSpec.isBase] using (hbase hb).2⟩)
          (fun hor => by
            have := hkey (hor.imp id (fun h => by simpa [FieldSpec.isKey] using h))
            simpa [FieldSpec.isBase] using this)
          hname
          (by
            rw [hk2names]
            exact List.Nodup.append hknd (List.nodup_singleton _)
              (by simpa [List.disjoint_right] using hfn))
          (by
            rw [hk2names]
            intro hnd2
            apply hdup
            simpa [expandedFieldNames, List.append_assoc] using hnd2)
        refine ⟨c, ?_⟩
        rw [heq, addColumnR_ok_of_not_mem k _ hfn]
        exact hc
    | baseEmbed b =>
      rcases hbi : k.baseIndex.isSome with _ | _
      · have hkf : kf = false := by
          cases kf
          · rfl
          · exact absurd (hkey (Or.inl rfl)) (by simp [FieldSpec.isBase])
        subst hkf
        have heq : createKindAux kname i false k (FieldSpec.baseEmbed b :: rest) =
            (if k.baseIndex.isSome = true then
              (Except.error ("Kind \x27" ++ kname ++
                "\x27: Multiple inheritance not supported.") : Except String KindR)
            else if (false : Bool) = true then
              Except.error ("Kind \x27" ++ kname ++
                "\x27 cannot embed Key directly and have a BaseKind Kind")
            else match setBaseKindR k i b with
              | .error m => .error m
              | .ok k2 => createKindAux kname (i + 1) false k2 rest) := rfl
        have hfilnil : rest.filter FieldSpec.isBase = [] := by
          rw [List.filter_cons_of_pos (by rfl)] at hcount
          simp only [List.length_cons] at hcount
          rw [← List.length_eq_zero]
          omega
        have hrestBase : rest.any FieldSpec.isBase = false := by
          by_contra hany
          have hany2 : rest.any FieldSpec.isBase = true := by
            revert hany
            cases rest.any FieldSpec.isBase <;> simp
          obtain ⟨x, hx, hpx⟩ := List.any_eq_true.mp hany2
          have hxf : x ∈ rest.filter FieldSpec.isBase :=
            List.mem_filter.mpr ⟨hx, hpx⟩
          rw [hfilnil] at hxf
          cases hxf
        have hrestKey : rest.any FieldSpec.isKey = false := by
          by_contra hany
          have hany2 : rest.any FieldSpec.isKey = true := by
            revert hany
            cases rest.any FieldSpec.isKey <;> simp
          have := hkey (Or.inr (by simp [FieldSpec.isKey, hany2]))
          simp [FieldSpec.isBase] at this
        by_cases hbnd2 : (fieldNamesR k ++ b.columns.map (fun c => c.fieldName)).Nodup
        · obtain ⟨T, hsb, hTnames, hTcols, hTbi, hTname⟩ := setBaseKindR_ok_props k i b
            ((List.nodup_append.mp hbnd2).2.1)
            (fun n hn hmem => (List.nodup_append.mp hbnd2).2.2 hmem hn)
          obtain ⟨c, hc⟩ := ih (i + 1) false T
            (by rw [hfilnil]; simp)
            (fun _ => ⟨hrestKey, hrestBase⟩)
            (fun _ => hrestBase)
            (hTname.trans hname)
            (by rw [hTnames]; exact hbnd2)
            (by
              rw [hTnames]
              intro hnd2
              apply hdup
              simpa [expandedFieldNames, List.append_assoc] using hnd2)
          refine ⟨c, ?_⟩
          rw [heq, if_neg (by simp [hbi]), if_neg (by simp), hsb]
          exact hc
        · obtain ⟨c, hc⟩ := setBaseKindR_err_of_dup k i b hknd hbnd2
          refine ⟨c, ?_⟩
          rw [heq, if_neg (by simp [hbi]), if_neg (by simp), hc, hname]
      · exact absurd (hbase hbi).2 (by simp [FieldSpec.isBase])

/-- C8 (amended): duplicate detection in kind registration is keyed on the
Go struct field name, not the SQL column name.  Under the shape conditions
of the embedding panics, registration succeeds exactly when the produced
column field names are pairwise distinct (the SQL column names may repeat
freely), and any duplicate field name makes registration fail with the
cannot-have-two-columns message, which prints the column name. -/
theorem claim_C8_duplicate_names (kname : String) (fields : List FieldSpec)
    (hshape : fieldsShapeOK fields = true) :
    ((expandedFieldNames fields).Nodup →
      ∃ K, createKindR kname fields = .ok K ∧
        fieldNamesR K = expandedFieldNames fields ∧
        colNamesR K = expandedColumnNames fields) ∧
    (¬ (expandedFieldNames fields).Nodup →
      ∃ c, createKindR kname fields = .error ("Kind \x27" ++ kname ++
        "\x27 cannot have two columns with the same name \x27" ++ c ++ "\x27")) := by
  have hsh := hshape
  unfold fieldsShapeOK at hsh
  rw [Bool.and_eq_true] at hsh
  obtain ⟨hc1, hc2⟩ := hsh
  have hcount : (fields.filter FieldSpec.isBase).length ≤ 1 := of_decide_eq_true hc1
  have hkey : (false = true ∨ fields.any FieldSpec.isKey = true) →
      fields.any FieldSpec.isBase = false := by
    rintro (h | h)
    · cases h
    · rcases hb : fields.any FieldSpec.isBase with _ | _
      · rfl
      · rw [h, hb] at hc2
        simp at hc2
  constructor
  · intro hnd
    obtain ⟨K, hK, h1, h2⟩ := createKindAux_ok_of_nodup kname fields 0 false
      { name := kname, columns := [], transient := [], baseIndex := none,
        baseName := none }
      hcount (fun hb => by cases hb) hkey (by simpa [fieldNamesR] using hnd)
    exact ⟨K, hK, by simpa [fieldNamesR] using h1, by simpa [colNamesR] using h2⟩
  · intro hdup
    obtain ⟨c, hc⟩ := createKindAux_err_of_dup kname fields 0 false
      { name := kname, columns := [], transient := [], baseIndex := none,
        baseName := none }
      hcount (fun hb => by cases hb) hkey rfl (by simp [fieldNamesR])
      (by simpa [fieldNamesR] using hdup)
    exact ⟨c, hc⟩

theorem claim_C8_counterexample :
    (createKindR "test.dup"
        [FieldSpec.keyMarker, FieldSpec.plain "A" (some "c"),
         FieldSpec.plain "B" (some "c")]).toOption.map colNamesR =
      some ["c", "c"] ∧
    ¬ (["c", "c"] : List String).Nodup := by
  refine ⟨by decide, by decide⟩

theorem claim_C8_duplicate_names_witness :
    fieldsShapeOK [FieldSpec.keyMarker, FieldSpec.plain "A" (some "c"),
      FieldSpec.plain "B" (some "c")] = true ∧
    (∃ K, createKindR "test.dup" [FieldSpec.keyMarker, FieldSpec.plain "A" (some "c"),
        FieldSpec.plain "B" (some "c")] = .ok K ∧
      fieldNamesR K = expandedFieldNames [FieldSpec.keyMarker,
        FieldSpec.plain "A" (some "c"), FieldSpec.plain "B" (some "c")] ∧
      colNamesR K = expandedColumnNames [FieldSpec.keyMarker,
        FieldSpec.plain "A" (some "c"), FieldSpec.plain "B" (some "c")]) ∧
    (∃ c, createKindR "test.dup2" [FieldSpec.plain "A" none, FieldSpec.plain "A" (some "c2")] =
      .error ("Kind \x27test.dup2\x27 cannot have two columns with the same name \x27" ++
        c ++ "\x27")) :=
  ⟨by decide,
   (claim_C8_duplicate_names "test.dup" [FieldSpec.keyMarker,
      FieldSpec.plain "A" (some "c"), FieldSpec.plain "B" (some "c")]
      (by decide)).1 (by decide),
   (claim_C8_duplicate_names "test.dup2"
      [FieldSpec.plain "A" none, FieldSpec.plain "A" (some "c2")]
      (by decide)).2 (by decide)⟩

/-! ## Query renderer lemmas (C2) -/

theorem extractVals_lit_cons (s : String) (l : List Frag) :
    extractVals (.lit s :: l) = extractVals l := rfl

theorem extractVals_single_lit (s : String) : extractVals [.lit s] = [] := rfl

theorem extractVals_nil : extractVals [] = [] := rfl

theorem extractVals_append (l1 l2 : List Frag) :
    extractVals (l1 ++ l2) = extractVals l1 ++ extractVals l2 := by
  unfold extractVals
  rw [List.filterMap_append]

theorem extractVals_flatMap {α : Type} (l : List α) (g : α → List Frag) :
    extractVals (l.flatMap g) = l.flatMap (fun x => extractVals (g x)) := by
  induction l with
  | nil => rfl
  | cons x rest ih =>
    rw [List.flatMap_cons, List.flatMap_cons, extractVals_append, ih]

theorem countCnt_eq (l : List Frag) : countCnt l = (extractVals l).length := by
  induction l with
  | nil => rfl
  | cons f rest ih =>
    cases f with
    | lit s => simpa [countCnt, extractVals, List.countP_cons] using ih
    | cnt v => simpa [countCnt, extractVals, List.countP_cons] using ih

theorem extractVals_refParamFrags (schema : String) (rs : List GoKey) :
    extractVals (refParamFrags schema rs) = rs.map (fun k => Val.s (keyString k)) := by
  induction rs with
  | nil => rfl
  | cons k rest ih =>
    cases rest with
    | nil => rfl
    | cons k2 r2 =>
      rw [show refParamFrags schema (k :: k2 :: r2) =
        [.cnt (.s (keyString k)), .lit ("::" ++ schema ++ ".\"Reference\""), .lit ", "] ++
          refParamFrags schema (k2 :: r2) from rfl]
      rw [extractVals_append, ih]
      rfl

theorem extractVals_refWhere (schema als col : String) (refs : Option (List GoKey))
    (hz inv : Bool) :
    extractVals (refWhereFrags schema als col refs hz inv) =
      (refs.getD []).map (fun k => Val.s (keyString k)) := by
  rcases refs with _ | rs
  · rcases hz with _ | _ <;> rcases inv with _ | _ <;> rfl
  · rcases hz with _ | _ <;> rcases inv with _ | _ <;>
      (simp only [refWhereFrags]
       rw [extractVals_append, extractVals_append, extractVals_single_lit,
         extractVals_single_lit, extractVals_refParamFrags]
       simp)

theorem refValues_getD (input : RefInput) :
    refValues input =
      ((refNormalize input).1.getD []).map (fun k => Val.s (keyString k)) := by
  unfold refValues
  rcases h : (refNormalize input).1 with _ | rs <;> rfl

mutual

theorem condFrags_extract (ctx : CondCtx) (c : Cond) (h : condOK c = true) :
    extractVals (condFrags ctx c) = condVals c := by
  match c with
  | .simple s params => exact absurd h (by simp [condOK])
  | .hasMaxVal col => exact absurd h (by simp [condOK])
  | .hasMinVal col => exact absurd h (by simp [condOK])
  | .predicate e op v => rfl
  | .hasId id => rfl
  | .isRoot => rfl
  | .hasParent p =>
    simp only [condFrags, condVals]
    split <;> first
      | rfl
      | (split <;> rfl)
  | .hasAncestor a =>
    simp only [condFrags, condVals]
    split <;> rfl
  | .references col input inv =>
    simp only [condFrags, condVals]
    exact (extractVals_refWhere ctx.schema ctx.aliasPfx col
      (refNormalize input).1 (refNormalize input).2 inv).trans
      (refValues_getD input).symm
  | .compound cs op =>
    have hcs : condListOK cs = true := by simpa [condOK] using h
    exact condListFrags_extract ctx cs (defaultOp op) hcs

theorem condListFrags_extract (ctx : CondCtx) (cs : List Cond) (op : String)
    (h : condListOK cs = true) :
    extractVals (condListFrags ctx cs op) = condListVals cs := by
  match cs with
  | [] => rfl
  | [c] =>
    have hc : condOK c = true := by simpa [condListOK] using h
    show extractVals (.lit "(" :: (condFrags ctx c ++ [.lit ")"])) =
      condVals c ++ condListVals []
    rw [extractVals_lit_cons, extractVals_append, condFrags_extract ctx c hc]
    rfl
  | c :: c2 :: rest =>
    have hc : condOK c = true ∧ condListOK (c2 :: rest) = true := by
      simpa [condListOK, Bool.and_eq_true] using h
    show extractVals ((.lit "(" :: (condFrags ctx c ++ [.lit (") " ++ op ++ " ")])) ++
        condListFrags ctx (c2 :: rest) op) = condVals c ++ condListVals (c2 :: rest)
    rw [extractVals_append, extractVals_lit_cons, extractVals_append,
      condFrags_extract ctx c hc.1, condListFrags_extract ctx (c2 :: rest) op hc.2]
    simp [extractVals_single_lit]

end

theorem tableWhereFrags_extract (ctx : CondCtx) (t : QTableC)
    (h : condListOK t.conditions = true) :
    extractVals (tableWhereFrags ctx t) = condListVals t.conditions := by
  unfold tableWhereFrags
  rcases hc : t.conditions with _ | ⟨c, rest⟩
  · rfl
  · rw [if_neg (by simp), extractVals_lit_cons,
      condListFrags_extract ctx (c :: rest) (defaultOp t.operand)
        (by rw [hc] at h; exact h)]

theorem extractVals_withTable (ctx : CondCtx) (t : QTableC)
    (h : condListOK t.conditions = true) :
    extractVals (withTableFrags ctx t) = tableVals t := by
  have hfm : extractVals ((t.kind.derivedKinds).flatMap
      (fun d => [.lit (withTableUnion t d)] ++ tableWhereFrags ctx t)) =
      t.kind.derivedKinds.flatMap (fun _ => condListVals t.conditions) := by
    induction t.kind.derivedKinds with
    | nil => rfl
    | cons d ds ih =>
      rw [List.flatMap_cons, List.flatMap_cons, extractVals_append, ih,
        extractVals_append, extractVals_single_lit, tableWhereFrags_extract ctx t h]
      rfl
  unfold withTableFrags tableVals
  rw [extractVals_append, extractVals_append, extractVals_append,
    extractVals_single_lit, extractVals_single_lit,
    tableWhereFrags_extract ctx t h]
  rcases hwd : t.withDerived with _ | _
  · simp [extractVals_nil]
  · rw [if_pos rfl, if_pos rfl, hfm]
    simp

theorem extractVals_subTable (ctx : CondCtx) (t : QTableC)
    (h : condListOK t.conditions = true)
    (hg : (t.withDerived && !t.kind.derivedKinds.isEmpty &&
      !t.conditions.isEmpty) = false) :
    extractVals (withTableFrags ctx t) = condListVals t.conditions := by
  rw [extractVals_withTable ctx t h]
  unfold tableVals
  rcases hwd : t.withDerived with _ | _
  · simp [hwd]
  · rw [hwd, Bool.true_and] at hg
    rcases hde : t.kind.derivedKinds.isEmpty with _ | _
    · rcases hce : t.conditions.isEmpty with _ | _
      · rw [hde, hce] at hg
        simp at hg
      · have hcnil : t.conditions = [] := by
          rcases h2 : t.conditions with _ | _
          · rfl
          · rw [h2] at hce
            cases hce
        rw [hcnil]
        simp [condListVals]
    · have hdnil : t.kind.derivedKinds = [] := by
        rcases h2 : t.kind.derivedKinds with _ | _
        · rfl
        · rw [h2] at hde
          cases hde
      rw [hdnil]
      simp

theorem extractVals_joinTables (q : QueryC) : ∀ (js : List JoinC),
    js.all (fun j => condListOK j.table.conditions) = true →
    extractVals (js.flatMap
      (fun j => [.lit ",\n\t\t"] ++ withTableFrags (ctxTables q) j.table)) =
    js.flatMap (fun j => tableVals j.table) := by
  intro js
  induction js with
  | nil => intro _; rfl
  | cons j rest ih =>
    intro hjs
    rw [List.all_cons, Bool.and_eq_true] at hjs
    rw [List.flatMap_cons, List.flatMap_cons, extractVals_append, extractVals_append,
      extractVals_single_lit, extractVals_withTable _ _ hjs.1, ih hjs.2]
    simp

theorem extractVals_subTables (q : QueryC) : ∀ (sqs : List SubQC),
    sqs.all (fun sq => condListOK sq.table.conditions &&
      !(sq.table.withDerived && !sq.table.kind.derivedKinds.isEmpty &&
        !sq.table.conditions.isEmpty)) = true →
    extractVals (sqs.flatMap
      (fun sq => [.lit ",\n\t\t"] ++ withTableFrags (ctxTables q) sq.table)) =
    sqs.flatMap (fun sq => condListVals sq.table.conditions) := by
  intro sqs
  induction sqs with
  | nil => intro _; rfl
  | cons sq rest ih =>
    intro hs
    rw [List.all_cons, Bool.and_eq_true] at hs
    obtain ⟨hhead, htail⟩ := hs
    rw [Bool.and_eq_true] at hhead
    have hguard : (sq.table.withDerived && !sq.table.kind.derivedKinds.isEmpty &&
        !sq.table.conditions.isEmpty) = false := by
      have h2 := hhead.2
      rcases hx : (sq.table.withDerived && !sq.table.kind.derivedKinds.isEmpty &&
          !sq.table.conditions.isEmpty) with _ | _
      · rfl
      · rw [hx] at h2
        cases h2
    rw [List.flatMap_cons, List.flatMap_cons, extractVals_append, extractVals_append,
      extractVals_single_lit, extractVals_subTable _ _ hhead.1 hguard, ih htail]
    simp

/-- C2 (amended): for every query whose conditions avoid SimpleCondition,
HasMaxValue and HasMinValue, and whose sub-queries do not combine
WithDerived with derived kinds and conditions, the rendered template
carries exactly one positional placeholder per value of Query.SQL, and the
values sit in placeholder order: root table conditions (repeated once per
derived kind under WithDerived), then each join likewise, then sub-query
conditions, then the query constraint.  The excluded shapes break the
correspondence: a SimpleCondition binds parameters without emitting
placeholders, HasMaxValue embeds the query-constraint clause without its
values, and a WithDerived sub-query repeats rendered clauses that
Query.SQL never repeats. -/
theorem claim_C2_sql_placeholders (q : QueryC) (frags : List Frag)
    (hok : queryOK q = true) (hfr : queryFrags q = some frags) :
    extractVals frags = querySQLValues q ∧
    countCnt frags = (querySQLValues q).length := by
  unfold queryOK at hok
  simp only [Bool.and_eq_true] at hok
  obtain ⟨⟨⟨hroot, hjoins⟩, hsubs⟩, hqc⟩ := hok
  unfold queryFrags at hfr
  rcases hm : optionMapM (joinClause q.table.kind (rootAlias q)) q.joins
      with _ | jcs <;> rw [hm] at hfr
  · cases hfr
  · have hfr2 : queryFragsCore q jcs = frags := by
      have h5 : some (queryFragsCore q jcs) = some frags := hfr
      exact Option.some.inj h5
    subst hfr2
    have h4 : extractVals (if q.queryConds.isEmpty then ([] : List Frag) else
        .lit "WHERE " :: condListFrags (ctxQueryConstraint q) q.queryConds
          (defaultOp q.queryOperand)) = condListVals q.queryConds := by
      rcases hqcs : q.queryConds with _ | ⟨c, rest⟩
      · rfl
      · rw [if_neg (by simp), extractVals_lit_cons,
          condListFrags_extract _ _ _ (by rw [hqcs] at hqc; exact hqc)]
    have hmain : extractVals (queryFragsCore q jcs) = querySQLValues q := by
      simp only [queryFragsCore]
      simp only [extractVals_append, extractVals_single_lit, List.nil_append,
        List.append_nil]
      rw [show extractVals (withTableFrags (ctxTables q)
          { q.table with als := rootAlias q }) = tableVals q.table from
        (extractVals_withTable (ctxTables q) _ hroot).trans rfl]
      rw [extractVals_joinTables q q.joins hjoins,
        extractVals_subTables q q.subQueries hsubs, h4]
      unfold querySQLValues
      simp [List.append_assoc]
    exact ⟨hmain, by rw [countCnt_eq, hmain]⟩

set_option maxRecDepth 4000 in
theorem claim_C2_counterexample :
    (queryFrags cxQueryC).map (fun fs => occCount (fragsJoin fs)) = some 0 ∧
    (querySQLValues cxQueryC).length = 1 := by
  refine ⟨by decide, by decide⟩

theorem claim_C2_sql_placeholders_witness :
    queryOK wQueryC = true ∧
    ∃ fs, queryFrags wQueryC = some fs ∧
      extractVals fs = querySQLValues wQueryC ∧
      countCnt fs = (querySQLValues wQueryC).length := by
  refine ⟨by decide, ?_⟩
  have hsome : (queryFrags wQueryC).isSome = true := by decide
  rcases hq : queryFrags wQueryC with _ | fs
  · rw [hq] at hsome
    simp at hsome
  · exact ⟨fs, rfl, (claim_C2_sql_placeholders wQueryC fs (by decide) hq).1,
      (claim_C2_sql_placeholders wQueryC fs (by decide) hq).2⟩

end Grumble
